import Mathlib

/-!
Verification of `scripts/add-error-logging.py`.

The script reads a file, applies `re.sub` with the pattern

  `(  } catch \([^)]+\) \{\s*\n)(    console\.error\([^\n]+\n)(    res\.status\()`

and a replacement function that, unless the matched span already contains
`logRouteError` or `logCriticalError`, re-emits the three groups with the line
`    await logRouteError(error, req).catch(() => {});` inserted between the
second and third group, counting each such insertion.  The file is rewritten
only when the result differs from the original.

We embed the text transformation over `List Char`.  The regex is compiled to a
deterministic matcher `tryMatch` (the pattern admits no genuine backtracking:
`[^)]+` stops at the first `)`, `[^\n]+` at the first newline, and of the
choices for `\s*\n` only consuming the whitespace run up to its last newline
can let the following four-space-indented literal match).  `re.sub`'s
left-to-right, non-overlapping scan is `subAuxF` (fuelled so that everything
computes by kernel reduction).
-/

/-- Python's `\s` character class for `str` patterns (Unicode whitespace). -/
def isPySpace (c : Char) : Bool :=
  ([' ', '\t', '\n', '\x0b', '\x0c', '\r', '\x1c', '\x1d', '\x1e', '\x1f',
    '\x85', '\xa0', ' ', ' ', ' ', ' ', ' ', ' ',
    ' ', ' ', ' ', ' ', ' ', ' ', ' ',
    ' ', ' ', ' ', '　'] : List Char).contains c

/-- The literal head of capture group 1: `  } catch (`. -/
def catchLit : List Char := "  \x7d catch (".toList

/-- The literal `) {` closing the catch header inside group 1. -/
def brcLit : List Char := ") \x7b".toList

/-- The literal head of capture group 2: four spaces and `console.error(`. -/
def conLit : List Char := "    console.error(".toList

/-- Capture group 3, the literal four spaces and `res.status(`. -/
def resLit : List Char := "    res.status(".toList

/-- The inserted statement, without its trailing newline. -/
def insLine : List Char :=
  "    await logRouteError(error, req).catch(() => \x7b\x7d);".toList

/-- The full inserted text: the statement plus its newline. -/
def insStr : List Char := insLine ++ ['\n']

/-- First exemption marker searched for in the matched span. -/
def marker1 : List Char := "logRouteError".toList

/-- Second exemption marker searched for in the matched span. -/
def marker2 : List Char := "logCriticalError".toList

/-- Match a literal prefix, returning the remainder on success. -/
def parseLit : List Char → List Char → Option (List Char)
  | [], s => some s
  | _ :: _, [] => none
  | p :: ps, c :: cs => if p = c then parseLit ps cs else none

/-- Attempt to match the compiled pattern at the head of `s`.  On success
returns the three capture groups and the remaining input.  Group 1 is
`  } catch (` ++ param ++ `) {` ++ ws-and-final-newline, group 2 is
`    console.error(` ++ rest-of-line ++ newline, group 3 is `    res.status(`. -/
def tryMatch (s : List Char) :
    Option (List Char × List Char × List Char × List Char) :=
  match parseLit catchLit s with
  | none => none
  | some r1 =>
    let p := r1.takeWhile (fun c => c != ')')
    let r2 := r1.dropWhile (fun c => c != ')')
    if p = [] then none else
    match parseLit brcLit r2 with
    | none => none
    | some r3 =>
      let run := r3.takeWhile isPySpace
      let after := r3.dropWhile isPySpace
      let tw := run.reverse.takeWhile (fun c => c != '\n')
      let dw := run.reverse.dropWhile (fun c => c != '\n')
      if dw = [] then none else
      match parseLit conLit (tw.reverse ++ after) with
      | none => none
      | some r4 =>
        let mid := r4.takeWhile (fun c => c != '\n')
        let r5 := r4.dropWhile (fun c => c != '\n')
        if mid = [] then none else
        match r5 with
        | '\n' :: r6 =>
          match parseLit resLit r6 with
          | none => none
          | some rest =>
            some (catchLit ++ p ++ brcLit ++ dw.reverse,
                  conLit ++ mid ++ ['\n'], resLit, rest)
        | _ => none

/-- Substring test: does `needle` occur contiguously inside the second list? -/
def hasSub (needle : List Char) : List Char → Bool
  | [] => needle.isEmpty
  | c :: t => (parseLit needle (c :: t)).isSome || hasSub needle t

/-- `'logRouteError' in full_match or 'logCriticalError' in full_match`. -/
def hasMarker (s : List Char) : Bool :=
  hasSub marker1 s || hasSub marker2 s

/-- The replacement callback: re-emit the match unchanged if a marker is
present, otherwise insert the logging line between groups 2 and 3 and count
one modification. -/
def replacement (g1 g2 g3 : List Char) : List Char × Nat :=
  if hasMarker (g1 ++ g2 ++ g3) then (g1 ++ g2 ++ g3, 0)
  else (g1 ++ g2 ++ insStr ++ g3, 1)

/-- Fuelled left-to-right non-overlapping scan of `re.sub`: at each position
try the pattern; on a match emit the replacement and resume after the match,
otherwise copy one character.  Also accumulates the modification count. -/
def subAuxF : Nat → List Char → List Char × Nat
  | 0, s => (s, 0)
  | Nat.succ n, s =>
    match tryMatch s with
    | some (g1, g2, g3, rest) =>
      let rp := replacement g1 g2 g3
      let r := subAuxF n rest
      (rp.1 ++ r.1, rp.2 + r.2)
    | none =>
      match s with
      | [] => ([], 0)
      | c :: t =>
        let r := subAuxF n t
        (c :: r.1, r.2)

/-- `re.sub(pattern, replacement, content)` together with the final value of
the `modifications` counter. -/
def reSub (s : List Char) : List Char × Nat := subAuxF s.length s

/-- Fuelled count of the non-overlapping, left-to-right occurrences of the
shape that do not contain an exemption marker. -/
def countMatchesF : Nat → List Char → Nat
  | 0, _ => 0
  | Nat.succ n, s =>
    match tryMatch s with
    | some (g1, g2, g3, rest) =>
      (if hasMarker (g1 ++ g2 ++ g3) then 0 else 1) + countMatchesF n rest
    | none =>
      match s with
      | [] => 0
      | _ :: t => countMatchesF n t

/-- The number of non-overlapping, non-exempt occurrences of the shape,
scanned left to right. -/
def countMatches (s : List Char) : Nat := countMatchesF s.length s

/-- `add_error_logging_to_file`, as a function of the file content: returns
the resulting file content, the function's return value, and whether the file
was rewritten. -/
def add_error_logging_to_file (content : List Char) : List Char × Nat × Bool :=
  let r := reSub content
  if r.1 = content then (content, 0, false) else (r.1, r.2, true)

/-- The decision taken by the `__main__` block. -/
inductive MainStep where
  | usageError : MainStep
  | runFile : String → MainStep
  deriving DecidableEq

/-- `if len(sys.argv) < 2: print usage; sys.exit(1)` else process `sys.argv[1]`. -/
def mainStep (argv : List String) : MainStep :=
  if argv.length < 2 then MainStep.usageError else MainStep.runFile (argv.getD 1 "")

/-- Exit status of the invocation (usage error exits 1, otherwise 0). -/
def mainExit : MainStep → Nat
  | MainStep.usageError => 1
  | MainStep.runFile _ => 0

/-- Whether the invocation opens the target file at all. -/
def mainTouchesFile : MainStep → Bool
  | MainStep.usageError => false
  | MainStep.runFile _ => true

/-- Whether the invocation prints the usage message. -/
def mainPrintsUsage : MainStep → Bool
  | MainStep.usageError => true
  | MainStep.runFile _ => false

/-- Split a text into its lines (separators dropped; a trailing newline yields
a final empty line, so `splitLines` is never empty). -/
def splitLines : List Char → List (List Char)
  | [] => [[]]
  | c :: t =>
    if c = '\n' then [] :: splitLines t
    else (c :: (splitLines t).headD []) :: (splitLines t).tail

/-- `LineIns ins A B` holds when the line list `B` is the line list `A` with
copies of the fixed line `ins` inserted at some positions. -/
inductive LineIns (ins : List Char) : List (List Char) → List (List Char) → Prop
  | nil : LineIns ins [] []
  | copy (l : List Char) {t u : List (List Char)} :
      LineIns ins t u → LineIns ins (l :: t) (l :: u)
  | insert {t u : List (List Char)} :
      LineIns ins t u → LineIns ins t (ins :: u)

/-- Group 1 of a successful match, assembled from its variable parts: the
catch parameter `p` and the whitespace `ws` preceding the final newline. -/
def mkG1 (p ws : List Char) : List Char :=
  catchLit ++ p ++ brcLit ++ ws ++ ['\n']

/-- Group 2 of a successful match: the remainder `mid` of the
`console.error` line before its newline. -/
def mkG2 (mid : List Char) : List Char :=
  conLit ++ mid ++ ['\n']

/-- Side conditions characterising the variable parts of a match: the catch
parameter is a nonempty run without `)`, the slack before the header's final
newline is whitespace, and the `console.error` line remainder is a nonempty
run without newlines. -/
def IsMatchParts (p ws mid : List Char) : Prop :=
  p ≠ [] ∧ (∀ c ∈ p, c ≠ ')') ∧ (∀ c ∈ ws, isPySpace c = true) ∧
    mid ≠ [] ∧ (∀ c ∈ mid, c ≠ '\n')

/-! ## Generic lemmas about `parseLit`, `takeWhile` and `dropWhile` -/

theorem parseLit_self : ∀ (pat r : List Char), parseLit pat (pat ++ r) = some r
  | [], _ => rfl
  | p :: ps, r => by simp [parseLit, parseLit_self ps r]

theorem parseLit_sound {pat : List Char} :
    ∀ {s r : List Char}, parseLit pat s = some r → s = pat ++ r := by
  induction pat with
  | nil =>
    intro s r h
    simpa [parseLit] using h
  | cons p ps ih =>
    intro s r h
    cases s with
    | nil => simp [parseLit] at h
    | cons c cs =>
      simp only [parseLit] at h
      split at h
      · next hpc => rw [hpc, ih h, List.cons_append]
      · exact absurd h (by simp)

/-- A mismatch in the zipped region forces `parseLit` to fail, no matter what
follows the mismatching region. -/
theorem parseLit_none_of_zipne :
    ∀ (pat u w : List Char), ((pat.zip u).any fun pr => pr.1 != pr.2) = true →
      parseLit pat (u ++ w) = none := by
  intro pat
  induction pat with
  | nil => intro u w h; simp at h
  | cons p ps ih =>
    intro u w h
    cases u with
    | nil => simp at h
    | cons c cs =>
      simp only [List.zip_cons_cons, List.any_cons, Bool.or_eq_true] at h
      rw [List.cons_append]
      simp only [parseLit]
      rcases h with h | h
      · have : p ≠ c := by simpa using h
        simp [this]
      · by_cases hpc : p = c
        · simp [hpc, ih cs w h]
        · simp [hpc]

theorem takeWhile_split {p : Char → Bool} :
    ∀ (u : List Char) (d : Char) (v : List Char), (∀ c ∈ u, p c = true) →
      p d = false →
      (u ++ d :: v).takeWhile p = u ∧ (u ++ d :: v).dropWhile p = d :: v := by
  intro u
  induction u with
  | nil =>
    intro d v _ hd
    constructor
    · simp [List.takeWhile_cons_of_neg, hd]
    · simp [List.dropWhile_cons_of_neg, hd]
  | cons a u ih =>
    intro d v hu hd
    have ha : p a = true := hu a (by simp)
    have hrec := ih d v (fun c hc => hu c (by simp [hc])) hd
    constructor
    · simp [List.takeWhile_cons_of_pos, ha, hrec.1]
    · simp [List.dropWhile_cons_of_pos, ha, hrec.2]

theorem mem_takeWhile_pred {p : Char → Bool} :
    ∀ {l : List Char} {c : Char}, c ∈ l.takeWhile p → p c = true := by
  intro l
  induction l with
  | nil => intro c h; simp at h
  | cons a t ih =>
    intro c h
    by_cases ha : p a
    · rw [List.takeWhile_cons_of_pos ha] at h
      rcases List.mem_cons.mp h with rfl | h
      · exact ha
      · exact ih h
    · rw [List.takeWhile_cons_of_neg ha] at h
      simp at h

theorem mem_dropWhile_mem {p : Char → Bool} :
    ∀ {l : List Char} {c : Char}, c ∈ l.dropWhile p → c ∈ l := by
  intro l
  induction l with
  | nil => intro c h; simp at h
  | cons a t ih =>
    intro c h
    by_cases ha : p a
    · rw [List.dropWhile_cons_of_pos ha] at h
      exact List.mem_cons_of_mem a (ih h)
    · rwa [List.dropWhile_cons_of_neg ha] at h

theorem dropWhile_head_false {p : Char → Bool} :
    ∀ {l : List Char} {c : Char} {r : List Char},
      l.dropWhile p = c :: r → p c = false := by
  intro l
  induction l with
  | nil => intro c r h; simp at h
  | cons a t ih =>
    intro c r h
    by_cases ha : p a
    · rw [List.dropWhile_cons_of_pos ha] at h
      exact ih h
    · rw [List.dropWhile_cons_of_neg ha] at h
      cases h
      exact eq_false_of_ne_true ha

/-! ## The matcher on structured input -/

theorem bne_true_of_ne {a b : Char} (h : a ≠ b) : (a != b) = true :=
  bne_iff_ne.mpr h

/-- Running the matcher on input that starts with a well-formed group 1 and
group 2 reduces to matching group 3's literal on the remainder. -/
theorem tm_structured (p ws mid z : List Char)
    (hp : p ≠ []) (hpc : ∀ c ∈ p, c ≠ ')')
    (hws : ∀ c ∈ ws, isPySpace c = true)
    (hmid : mid ≠ []) (hmidc : ∀ c ∈ mid, c ≠ '\n') :
    tryMatch (mkG1 p ws ++ (mkG2 mid ++ z)) =
      match parseLit resLit z with
      | some rest => some (mkG1 p ws, mkG2 mid, resLit, rest)
      | none => none := by
  have sp4 : List Char := [' ', ' ', ' ', ' ']
  have hshape : mkG1 p ws ++ (mkG2 mid ++ z)
      = catchLit ++ (p ++ (')' :: (' ' :: ('\x7b' ::
          (ws ++ '\n' :: (conLit ++ (mid ++ '\n' :: z))))))) := by
    simp [mkG1, mkG2, brcLit, List.append_assoc]
  -- the first span: the parameter, stopped by the `)` of `) {`
  have hspan1 := takeWhile_split (p := fun c => c != ')') p ')'
    (' ' :: ('\x7b' :: (ws ++ '\n' :: (conLit ++ (mid ++ '\n' :: z)))))
    (fun c hc => bne_true_of_ne (hpc c hc)) (by simp)
  -- the whitespace span after `) {`: `ws ++ '\n'` plus `conLit`'s four spaces
  have hconshape : conLit ++ (mid ++ '\n' :: z)
      = [' ', ' ', ' ', ' '] ++ ('c' :: ("onsole.error(".toList ++ (mid ++ '\n' :: z))) := rfl
  have hwsmem : ∀ c ∈ (ws ++ '\n' :: [' ', ' ', ' ', ' ']), isPySpace c = true := by
    intro c hc
    rcases List.mem_append.mp hc with h | h
    · exact hws c h
    · simp only [List.mem_cons, List.mem_singleton] at h
      rcases h with rfl | rfl | rfl | rfl | h
      · decide
      · decide
      · decide
      · decide
      · simp at h; rw [h]; decide
  have hspan2 := takeWhile_split (p := isPySpace) (ws ++ '\n' :: [' ', ' ', ' ', ' '])
    'c' ("onsole.error(".toList ++ (mid ++ '\n' :: z)) hwsmem (by decide)
  -- the reverse span locating the last newline of the whitespace run
  have hrev : (ws ++ '\n' :: [' ', ' ', ' ', ' ']).reverse
      = [' ', ' ', ' ', ' '] ++ '\n' :: ws.reverse := by
    simp
  have hspan3 := takeWhile_split (p := fun c => c != '\n') [' ', ' ', ' ', ' ']
    '\n' ws.reverse (by decide) (by simp)
  -- the span for the console line remainder
  have hspan4 := takeWhile_split (p := fun c => c != '\n') mid '\n' z
    (fun c hc => bne_true_of_ne (hmidc c hc)) (by simp)
  rw [hshape]
  unfold tryMatch
  rw [parseLit_self]
  simp only
  have e1 : (p ++ ')' :: (' ' :: ('\x7b' ::
      (ws ++ '\n' :: (conLit ++ (mid ++ '\n' :: z)))))).takeWhile (fun c => c != ')') = p :=
    hspan1.1
  have e2 : (p ++ ')' :: (' ' :: ('\x7b' ::
      (ws ++ '\n' :: (conLit ++ (mid ++ '\n' :: z)))))).dropWhile (fun c => c != ')')
      = ')' :: (' ' :: ('\x7b' :: (ws ++ '\n' :: (conLit ++ (mid ++ '\n' :: z))))) :=
    hspan1.2
  rw [e1, e2, if_neg hp]
  have e3 : parseLit brcLit (')' :: (' ' :: ('\x7b' ::
      (ws ++ '\n' :: (conLit ++ (mid ++ '\n' :: z))))))
      = some (ws ++ '\n' :: (conLit ++ (mid ++ '\n' :: z))) :=
    parseLit_self brcLit (ws ++ '\n' :: (conLit ++ (mid ++ '\n' :: z)))
  rw [e3]
  simp only
  have eshape : ws ++ '\n' :: (conLit ++ (mid ++ '\n' :: z))
      = (ws ++ '\n' :: [' ', ' ', ' ', ' ']) ++
          'c' :: ("onsole.error(".toList ++ (mid ++ '\n' :: z)) := by
    rw [hconshape]
    simp [List.append_assoc]
  rw [eshape, hspan2.1, hspan2.2, hrev, hspan3.1, hspan3.2]
  have hdw : ('\n' :: ws.reverse) ≠ [] := by simp
  rw [if_neg hdw]
  have e4 : ([' ', ' ', ' ', ' '] : List Char).reverse ++
      'c' :: ("onsole.error(".toList ++ (mid ++ '\n' :: z))
      = conLit ++ (mid ++ '\n' :: z) := rfl
  rw [e4, parseLit_self]
  simp only
  rw [hspan4.1, hspan4.2, if_neg hmid]
  simp only
  have e5 : catchLit ++ p ++ brcLit ++ ('\n' :: ws.reverse).reverse = mkG1 p ws := by
    simp [mkG1, List.append_assoc]
  have e6 : conLit ++ mid ++ ['\n'] = mkG2 mid := by
    simp [mkG2]
  rw [e5, e6]
  cases parseLit resLit z <;> rfl

/-- Soundness of the matcher: a successful match decomposes the input and the
groups into the structured form. -/
theorem tryMatch_sound {s g1 g2 g3 rest : List Char}
    (h : tryMatch s = some (g1, g2, g3, rest)) :
    ∃ p ws mid, IsMatchParts p ws mid ∧ g1 = mkG1 p ws ∧ g2 = mkG2 mid ∧
      g3 = resLit ∧ s = g1 ++ (g2 ++ (g3 ++ rest)) := by
  unfold tryMatch at h
  cases hc : parseLit catchLit s with
  | none => rw [hc] at h; simp at h
  | some r1 =>
    rw [hc] at h
    simp only at h
    by_cases hp : r1.takeWhile (fun c => c != ')') = []
    · rw [if_pos hp] at h; simp at h
    · rw [if_neg hp] at h
      cases hb : parseLit brcLit (r1.dropWhile (fun c => c != ')')) with
      | none => rw [hb] at h; simp at h
      | some r3 =>
        rw [hb] at h
        simp only at h
        by_cases hdw : (r3.takeWhile isPySpace).reverse.dropWhile (fun c => c != '\n') = []
        · rw [if_pos hdw] at h; simp at h
        · rw [if_neg hdw] at h
          cases hcl : parseLit conLit
              (((r3.takeWhile isPySpace).reverse.takeWhile (fun c => c != '\n')).reverse
                ++ r3.dropWhile isPySpace) with
          | none => rw [hcl] at h; simp at h
          | some r4 =>
            rw [hcl] at h
            simp only at h
            by_cases hmid : r4.takeWhile (fun c => c != '\n') = []
            · rw [if_pos hmid] at h; simp at h
            · rw [if_neg hmid] at h
              cases hr5 : r4.dropWhile (fun c => c != '\n') with
              | nil => rw [hr5] at h; simp at h
              | cons d r6 =>
                rw [hr5] at h
                have hd : d = '\n' := by
                  have hdf := dropWhile_head_false hr5
                  simpa using hdf
                subst hd
                simp only at h
                cases hres : parseLit resLit r6 with
                | none => rw [hres] at h; simp at h
                | some rst =>
                  rw [hres] at h
                  simp only [Option.some_inj, Prod.mk.injEq] at h
                  obtain ⟨hg1, hg2, hg3, hrest⟩ := h
                  -- name the variable pieces
                  cases hdweq : (r3.takeWhile isPySpace).reverse.dropWhile (fun c => c != '\n') with
                  | nil => exact absurd hdweq hdw
                  | cons e dtl =>
                    have he : e = '\n' := by
                      have := dropWhile_head_false hdweq
                      simpa using this
                    subst he
                    refine ⟨r1.takeWhile (fun c => c != ')'), dtl.reverse,
                      r4.takeWhile (fun c => c != '\n'), ?_, ?_, ?_, hg3.symm, ?_⟩
                    · refine ⟨hp, ?_, ?_, hmid, ?_⟩
                      · intro c hcmem
                        have := mem_takeWhile_pred hcmem
                        simpa using this
                      · intro c hcmem
                        have h1 : c ∈ dtl := (List.mem_reverse).mp hcmem
                        have h2 : c ∈ '\n' :: dtl := List.mem_cons_of_mem _ h1
                        rw [← hdweq] at h2
                        have h3 : c ∈ (r3.takeWhile isPySpace).reverse := mem_dropWhile_mem h2
                        have h4 : c ∈ r3.takeWhile isPySpace := (List.mem_reverse).mp h3
                        exact mem_takeWhile_pred h4
                      · intro c hcmem
                        have := mem_takeWhile_pred hcmem
                        simpa using this
                    · rw [← hg1, hdweq, mkG1]
                      simp [List.append_assoc]
                    · rw [← hg2, mkG2]
                    · -- reconstruct s from the parse decompositions
                      have hs1 : s = catchLit ++ r1 := parseLit_sound hc
                      have hr1 : r1 = r1.takeWhile (fun c => c != ')') ++
                          r1.dropWhile (fun c => c != ')') :=
                        (List.takeWhile_append_dropWhile _ r1).symm
                      have hr2 : r1.dropWhile (fun c => c != ')') = brcLit ++ r3 :=
                        parseLit_sound hb
                      have hr3 : r3 = r3.takeWhile isPySpace ++ r3.dropWhile isPySpace :=
                        (List.takeWhile_append_dropWhile _ r3).symm
                      have hrevsplit : r3.takeWhile isPySpace =
                          ('\n' :: dtl).reverse ++
                            ((r3.takeWhile isPySpace).reverse.takeWhile
                              (fun c => c != '\n')).reverse := by
                        have hx : (r3.takeWhile isPySpace).reverse =
                            (r3.takeWhile isPySpace).reverse.takeWhile (fun c => c != '\n') ++
                              ('\n' :: dtl) := by
                          conv_lhs => rw [← List.takeWhile_append_dropWhile
                            (fun c => c != '\n') (r3.takeWhile isPySpace).reverse]
                          rw [hdweq]
                        have hy := congrArg List.reverse hx
                        rwa [List.reverse_reverse, List.reverse_append] at hy
                      have hr4 : ((r3.takeWhile isPySpace).reverse.takeWhile
                            (fun c => c != '\n')).reverse ++ r3.dropWhile isPySpace
                          = conLit ++ r4 := parseLit_sound hcl
                      have hr5' : r4 = r4.takeWhile (fun c => c != '\n') ++ ('\n' :: r6) := by
                        conv_lhs => rw [← List.takeWhile_append_dropWhile
                          (fun c => c != '\n') r4]
                        rw [hr5]
                      have hr6 : r6 = resLit ++ rst := parseLit_sound hres
                      rw [← hg1, ← hg2, ← hg3, ← hrest, hdweq, hs1]
                      calc catchLit ++ r1
                          = catchLit ++ (r1.takeWhile (fun c => c != ')') ++
                              (brcLit ++ r3)) := by rw [← hr2, ← hr1]
                        _ = catchLit ++ (r1.takeWhile (fun c => c != ')') ++
                              (brcLit ++ ((('\n' :: dtl).reverse ++
                                ((r3.takeWhile isPySpace).reverse.takeWhile
                                  (fun c => c != '\n')).reverse) ++
                                r3.dropWhile isPySpace))) := by
                            rw [← hrevsplit, ← hr3]
                        _ = catchLit ++ (r1.takeWhile (fun c => c != ')') ++
                              (brcLit ++ (('\n' :: dtl).reverse ++ (conLit ++ r4)))) := by
                            rw [← hr4]; simp [List.append_assoc]
                        _ = catchLit ++ (r1.takeWhile (fun c => c != ')') ++
                              (brcLit ++ (('\n' :: dtl).reverse ++
                                (conLit ++ (r4.takeWhile (fun c => c != '\n') ++
                                  ('\n' :: (resLit ++ rst))))))) := by
                            rw [← hr6, ← hr5']
                        _ = catchLit ++ r1.takeWhile (fun c => c != ')') ++ brcLit ++
                              ('\n' :: dtl).reverse ++
                              (conLit ++ r4.takeWhile (fun c => c != '\n') ++ ['\n'] ++
                                (resLit ++ rst)) := by
                            simp [List.append_assoc]

/-! ## Corollaries of the matcher characterisation -/

theorem tryMatch_nil : tryMatch [] = none := rfl

theorem tryMatch_some_ne_nil {x : List Char × List Char × List Char × List Char}
    {s : List Char} (h : tryMatch s = some x) : s ≠ [] := by
  intro hs
  rw [hs, tryMatch_nil] at h
  exact Option.noConfusion h

theorem tryMatch_rest_length {s g1 g2 g3 rest : List Char}
    (h : tryMatch s = some (g1, g2, g3, rest)) : rest.length < s.length := by
  obtain ⟨p, ws, mid, _, hg1, _, _, hs⟩ := tryMatch_sound h
  rw [hs, hg1]
  simp [mkG1, catchLit, List.length_append]
  omega

theorem tryMatch_structured_some {p ws mid : List Char}
    (hparts : IsMatchParts p ws mid) (v : List Char) :
    tryMatch (mkG1 p ws ++ (mkG2 mid ++ (resLit ++ v)))
      = some (mkG1 p ws, mkG2 mid, resLit, v) := by
  obtain ⟨hp, hpc, hws, hmid, hmidc⟩ := hparts
  rw [tm_structured p ws mid (resLit ++ v) hp hpc hws hmid hmidc, parseLit_self]

theorem tryMatch_structured_none {p ws mid : List Char}
    (hparts : IsMatchParts p ws mid) {z : List Char}
    (hz : parseLit resLit z = none) :
    tryMatch (mkG1 p ws ++ (mkG2 mid ++ z)) = none := by
  obtain ⟨hp, hpc, hws, hmid, hmidc⟩ := hparts
  rw [tm_structured p ws mid z hp hpc hws hmid hmidc, hz]

/-! ## Equations for the fuelled scans -/

theorem subAuxF_nil : ∀ m : Nat, subAuxF m [] = ([], 0)
  | 0 => rfl
  | Nat.succ _ => by simp [subAuxF, tryMatch_nil]

theorem countMatchesF_nil : ∀ m : Nat, countMatchesF m [] = 0
  | 0 => rfl
  | Nat.succ _ => by simp [countMatchesF, tryMatch_nil]

theorem subAuxF_stable :
    ∀ (n : Nat) (m : Nat) (s : List Char), s.length ≤ n → s.length ≤ m →
      subAuxF n s = subAuxF m s := by
  intro n
  induction n with
  | zero =>
    intro m s h1 _
    have : s = [] := List.length_eq_zero.mp (Nat.le_zero.mp h1)
    rw [this, subAuxF_nil, subAuxF_nil]
  | succ n ih =>
    intro m s h1 h2
    cases m with
    | zero =>
      have : s = [] := List.length_eq_zero.mp (Nat.le_zero.mp h2)
      rw [this, subAuxF_nil, subAuxF_nil]
    | succ mm =>
      simp only [subAuxF]
      cases htm : tryMatch s with
      | some x =>
        obtain ⟨g1, g2, g3, rest⟩ := x
        have hlen := tryMatch_rest_length htm
        dsimp only
        rw [ih mm rest (by omega) (by omega)]
      | none =>
        cases s with
        | nil => rfl
        | cons c t =>
          simp only [List.length_cons] at h1 h2
          dsimp only
          rw [ih mm t (by omega) (by omega)]

theorem countMatchesF_stable :
    ∀ (n : Nat) (m : Nat) (s : List Char), s.length ≤ n → s.length ≤ m →
      countMatchesF n s = countMatchesF m s := by
  intro n
  induction n with
  | zero =>
    intro m s h1 _
    have : s = [] := List.length_eq_zero.mp (Nat.le_zero.mp h1)
    rw [this, countMatchesF_nil, countMatchesF_nil]
  | succ n ih =>
    intro m s h1 h2
    cases m with
    | zero =>
      have : s = [] := List.length_eq_zero.mp (Nat.le_zero.mp h2)
      rw [this, countMatchesF_nil, countMatchesF_nil]
    | succ mm =>
      simp only [countMatchesF]
      cases htm : tryMatch s with
      | some x =>
        obtain ⟨g1, g2, g3, rest⟩ := x
        have hlen := tryMatch_rest_length htm
        dsimp only
        rw [ih mm rest (by omega) (by omega)]
      | none =>
        cases s with
        | nil => rfl
        | cons c t =>
          simp only [List.length_cons] at h1 h2
          dsimp only
          rw [ih mm t (by omega) (by omega)]

theorem reSub_nil : reSub [] = ([], 0) := rfl

theorem reSub_match {s g1 g2 g3 rest : List Char}
    (h : tryMatch s = some (g1, g2, g3, rest)) :
    reSub s = ((replacement g1 g2 g3).1 ++ (reSub rest).1,
               (replacement g1 g2 g3).2 + (reSub rest).2) := by
  cases s with
  | nil => exact absurd rfl (tryMatch_some_ne_nil h)
  | cons c t =>
    have hlen := tryMatch_rest_length h
    simp only [List.length_cons] at hlen
    show subAuxF (t.length + 1) (c :: t) = _
    simp only [subAuxF, h]
    rw [subAuxF_stable t.length rest.length rest (by omega) (le_refl _)]
    rfl

theorem reSub_none {c : Char} {t : List Char}
    (h : tryMatch (c :: t) = none) :
    reSub (c :: t) = (c :: (reSub t).1, (reSub t).2) := by
  show subAuxF (t.length + 1) (c :: t) = _
  simp only [subAuxF, h]
  rfl

theorem countMatches_match {s g1 g2 g3 rest : List Char}
    (h : tryMatch s = some (g1, g2, g3, rest)) :
    countMatches s =
      (if hasMarker (g1 ++ g2 ++ g3) then 0 else 1) + countMatches rest := by
  cases s with
  | nil => exact absurd rfl (tryMatch_some_ne_nil h)
  | cons c t =>
    have hlen := tryMatch_rest_length h
    simp only [List.length_cons] at hlen
    show countMatchesF (t.length + 1) (c :: t) = _
    simp only [countMatchesF, h]
    rw [countMatchesF_stable t.length rest.length rest (by omega) (le_refl _)]
    rfl

theorem countMatches_none {c : Char} {t : List Char}
    (h : tryMatch (c :: t) = none) :
    countMatches (c :: t) = countMatches t := by
  show countMatchesF (t.length + 1) (c :: t) = _
  simp only [countMatchesF, h]
  rfl

/-! ## Count and length facts about the scan -/

theorem replacement_snd (g1 g2 g3 : List Char) :
    (replacement g1 g2 g3).2 = if hasMarker (g1 ++ g2 ++ g3) then 0 else 1 := by
  unfold replacement
  split <;> rfl

theorem reSub_snd_eq_countMatches (s : List Char) :
    (reSub s).2 = countMatches s := by
  have H : ∀ (n : Nat) (u : List Char), u.length ≤ n →
      (reSub u).2 = countMatches u := by
    intro n
    induction n with
    | zero =>
      intro u hu
      have : u = [] := List.length_eq_zero.mp (Nat.le_zero.mp hu)
      rw [this]; rfl
    | succ n ih =>
      intro u hu
      cases htm : tryMatch u with
      | some x =>
        obtain ⟨g1, g2, g3, rest⟩ := x
        have hlen := tryMatch_rest_length htm
        rw [reSub_match htm, countMatches_match htm, replacement_snd]
        simp only
        rw [ih rest (by omega)]
      | none =>
        cases u with
        | nil => rfl
        | cons c t =>
          simp only [List.length_cons] at hu
          rw [reSub_none htm, countMatches_none htm]
          exact ih t (by omega)
  exact H s.length s (le_refl _)

theorem reSub_fst_length (s : List Char) :
    (reSub s).1.length = s.length + insStr.length * (reSub s).2 := by
  have H : ∀ (n : Nat) (u : List Char), u.length ≤ n →
      (reSub u).1.length = u.length + insStr.length * (reSub u).2 := by
    intro n
    induction n with
    | zero =>
      intro u hu
      have : u = [] := List.length_eq_zero.mp (Nat.le_zero.mp hu)
      rw [this]; rfl
    | succ n ih =>
      intro u hu
      cases htm : tryMatch u with
      | some x =>
        obtain ⟨g1, g2, g3, rest⟩ := x
        have hlen := tryMatch_rest_length htm
        obtain ⟨p, ws, mid, _, _, _, _, hs⟩ := tryMatch_sound htm
        have hulen : u.length = g1.length + (g2.length + (g3.length + rest.length)) := by
          rw [hs]; simp [List.length_append]
        rw [reSub_match htm]
        have hrest := ih rest (by omega)
        unfold replacement
        split
        · simp only [List.length_append]
          rw [hrest]
          simp [List.length_append] at hulen ⊢
          omega
        · simp only [List.length_append]
          rw [hrest]
          simp only [Nat.mul_add, Nat.mul_one]
          simp [List.length_append] at hulen ⊢
          omega
      | none =>
        cases u with
        | nil => rfl
        | cons c t =>
          simp only [List.length_cons] at hu
          rw [reSub_none htm]
          simp only [List.length_cons]
          rw [ih t (by omega)]
          omega
  exact H s.length s (le_refl _)

theorem reSub_fst_of_snd_zero {s : List Char} (h : (reSub s).2 = 0) :
    (reSub s).1 = s := by
  have H : ∀ (n : Nat) (u : List Char), u.length ≤ n → (reSub u).2 = 0 →
      (reSub u).1 = u := by
    intro n
    induction n with
    | zero =>
      intro u hu _
      have : u = [] := List.length_eq_zero.mp (Nat.le_zero.mp hu)
      rw [this]; rfl
    | succ n ih =>
      intro u hu h0
      cases htm : tryMatch u with
      | some x =>
        obtain ⟨g1, g2, g3, rest⟩ := x
        have hlen := tryMatch_rest_length htm
        obtain ⟨p, ws, mid, _, _, _, _, hs⟩ := tryMatch_sound htm
        rw [reSub_match htm] at h0 ⊢
        simp only [Nat.add_eq_zero] at h0
        obtain ⟨hrp, hrest⟩ := h0
        have hmarker : hasMarker (g1 ++ g2 ++ g3) = true := by
          by_contra hmk
          rw [replacement_snd, if_neg hmk] at hrp
          exact one_ne_zero hrp
        simp only [replacement, hmarker, if_true]
        rw [ih rest (by omega) hrest, hs]
        simp [List.append_assoc]
      | none =>
        cases u with
        | nil => rfl
        | cons c t =>
          simp only [List.length_cons] at hu
          rw [reSub_none htm] at h0 ⊢
          rw [ih t (by omega) h0]
  exact H s.length s (le_refl _) h

theorem insStr_length_pos : 0 < insStr.length := by decide

theorem reSub_fst_eq_iff (s : List Char) :
    (reSub s).1 = s ↔ (reSub s).2 = 0 := by
  constructor
  · intro h
    have hl := reSub_fst_length s
    rw [h] at hl
    have h0 : insStr.length * (reSub s).2 = 0 :=
      (Nat.self_eq_add_right.mp hl)
    rcases Nat.mul_eq_zero.mp h0 with h1 | h1
    · exact absurd h1 (Nat.pos_iff_ne_zero.mp insStr_length_pos)
    · exact h1
  · exact reSub_fst_of_snd_zero

/-! ## Substring characterisation of the marker check -/

theorem parseLit_isSome_iff {needle s : List Char} :
    (parseLit needle s).isSome = true ↔ ∃ r, s = needle ++ r := by
  constructor
  · intro h
    cases hp : parseLit needle s with
    | none => rw [hp] at h; simp at h
    | some r => exact ⟨r, parseLit_sound hp⟩
  · rintro ⟨r, rfl⟩
    rw [parseLit_self]
    rfl

theorem hasSub_iff {needle : List Char} :
    ∀ {hay : List Char}, hasSub needle hay = true ↔ ∃ u v, hay = u ++ needle ++ v := by
  intro hay
  induction hay with
  | nil =>
    simp only [hasSub]
    constructor
    · intro h
      refine ⟨[], [], ?_⟩
      have : needle = [] := List.isEmpty_iff.mp h
      simp [this]
    · rintro ⟨u, v, huv⟩
      have hu := List.append_eq_nil.mp (huv.symm)
      have hn := List.append_eq_nil.mp hu.1
      simp [List.isEmpty_iff, hn.2]
  | cons c t ih =>
    simp only [hasSub, Bool.or_eq_true]
    constructor
    · rintro (h | h)
      · obtain ⟨r, hr⟩ := parseLit_isSome_iff.mp h
        exact ⟨[], r, by simp [hr]⟩
      · obtain ⟨u, v, huv⟩ := ih.mp h
        exact ⟨c :: u, v, by simp [huv]⟩
    · rintro ⟨u, v, huv⟩
      cases u with
      | nil =>
        left
        exact parseLit_isSome_iff.mpr ⟨v, by simpa using huv⟩
      | cons d u' =>
        right
        apply ih.mpr
        refine ⟨u', v, ?_⟩
        have hcd : c :: t = d :: (u' ++ needle ++ v) := by simpa using huv
        injection hcd with h1 h2

theorem hasMarker_iff {s : List Char} :
    hasMarker s = true ↔
      (∃ u v, s = u ++ marker1 ++ v) ∨ (∃ u v, s = u ++ marker2 ++ v) := by
  unfold hasMarker
  rw [Bool.or_eq_true, hasSub_iff, hasSub_iff]

/-! ## Claim theorems -/

/-- C2: for every matched occurrence whose span contains neither exemption
marker, the transform emits the span with exactly the fixed line
`    await logRouteError(error, req).catch(() => {});` plus a newline inserted
between the `console.error` line (group 2) and the `res.status` line (group
3), counts exactly one modification for it, and that inserted line contains no
other newline and is indented with four spaces. -/
theorem claim_C2_insertion_correctness {s g1 g2 g3 rest : List Char}
    (hm : tryMatch s = some (g1, g2, g3, rest))
    (hex : hasMarker (g1 ++ g2 ++ g3) = false) :
    reSub s = (g1 ++ g2 ++ (insLine ++ ['\n']) ++ g3 ++ (reSub rest).1,
               1 + (reSub rest).2)
    ∧ insLine = "    await logRouteError(error, req).catch(() => \x7b\x7d);".toList
    ∧ '\n' ∉ insLine
    ∧ insLine.take 4 = [' ', ' ', ' ', ' '] := by
  refine ⟨?_, rfl, by decide, by decide⟩
  rw [reSub_match hm]
  unfold replacement
  rw [hex]
  simp [insStr, List.append_assoc]

/-- Witness for C2 at the spec's example scenario 1. -/
theorem claim_C2_witness :
    tryMatch ("  \x7d catch (e) \x7b\n    console.error(x);\n    res.status(".toList)
      = some ("  \x7d catch (e) \x7b\n".toList, "    console.error(x);\n".toList,
              resLit, [])
    ∧ hasMarker ("  \x7d catch (e) \x7b\n".toList ++ "    console.error(x);\n".toList
        ++ resLit) = false
    ∧ (reSub ("  \x7d catch (e) \x7b\n    console.error(x);\n    res.status(".toList)
        = ("  \x7d catch (e) \x7b\n".toList ++ "    console.error(x);\n".toList ++
            (insLine ++ ['\n']) ++ resLit ++ (reSub []).1, 1 + (reSub []).2)
      ∧ insLine = "    await logRouteError(error, req).catch(() => \x7b\x7d);".toList
      ∧ '\n' ∉ insLine
      ∧ insLine.take 4 = [' ', ' ', ' ', ' ']) :=
  ⟨by decide, by decide, claim_C2_insertion_correctness (by decide) (by decide)⟩

/-- C3: for every matched occurrence whose span contains the identifier
`logRouteError` or `logCriticalError` anywhere, nothing is inserted at that
occurrence: the scan emits the three-group span byte-identically and counts
no modification for it. -/
theorem claim_C3_exemption_respect {s g1 g2 g3 rest : List Char}
    (hm : tryMatch s = some (g1, g2, g3, rest))
    (hex : (∃ u v, g1 ++ g2 ++ g3 = u ++ marker1 ++ v) ∨
           (∃ u v, g1 ++ g2 ++ g3 = u ++ marker2 ++ v)) :
    reSub s = ((g1 ++ g2 ++ g3) ++ (reSub rest).1, (reSub rest).2) := by
  have hmk : hasMarker (g1 ++ g2 ++ g3) = true := hasMarker_iff.mpr hex
  rw [reSub_match hm]
  unfold replacement
  rw [hmk]
  simp

/-- Witness for C3 at the spec's example scenario 3. -/
theorem claim_C3_witness :
    tryMatch ("  \x7d catch (e) \x7b\n    console.error(x, logRouteError);\n    res.status(".toList)
      = some ("  \x7d catch (e) \x7b\n".toList,
              "    console.error(x, logRouteError);\n".toList, resLit, [])
    ∧ ("  \x7d catch (e) \x7b\n".toList ++ "    console.error(x, logRouteError);\n".toList
        ++ resLit
        = "  \x7d catch (e) \x7b\n    console.error(x, ".toList ++ marker1 ++ ");\n    res.status(".toList)
    ∧ reSub ("  \x7d catch (e) \x7b\n    console.error(x, logRouteError);\n    res.status(".toList)
        = (("  \x7d catch (e) \x7b\n".toList ++ "    console.error(x, logRouteError);\n".toList
            ++ resLit) ++ (reSub []).1, (reSub []).2) :=
  ⟨by decide, by decide,
    claim_C3_exemption_respect (by decide)
      (Or.inl ⟨"  \x7d catch (e) \x7b\n    console.error(x, ".toList,
               ");\n    res.status(".toList, by decide⟩)⟩

/-- C4: the returned modification count is `0` exactly when the transformed
text is byte-identical to the original, and the file is rewritten exactly
when the count is non-zero. -/
theorem claim_C4_count_zero_iff_unchanged (content : List Char) :
    ((add_error_logging_to_file content).2.1 = 0 ↔
      (add_error_logging_to_file content).1 = content)
    ∧ ((add_error_logging_to_file content).2.2 = true ↔
      (add_error_logging_to_file content).2.1 ≠ 0) := by
  unfold add_error_logging_to_file
  by_cases h : (reSub content).1 = content
  · simp [h]
  · simp only [h, if_false]
    have hne : (reSub content).2 ≠ 0 := by
      intro h0
      exact h (reSub_fst_of_snd_zero h0)
    constructor
    · constructor
      · intro h0; exact absurd (reSub_fst_of_snd_zero h0) h
      · intro h1; exact h1.elim
    · simp [hne]

/-- C5: the returned modification count equals the number of non-overlapping,
left-to-right, non-exempt occurrences of the three-line shape in the input. -/
theorem claim_C5_nonoverlap_count (content : List Char) :
    (add_error_logging_to_file content).2.1 = countMatches content := by
  unfold add_error_logging_to_file
  by_cases h : (reSub content).1 = content
  · simp only [h, if_true]
    rw [← reSub_snd_eq_countMatches]
    exact ((reSub_fst_eq_iff content).mp h).symm
  · simp only [h, if_false]
    exact reSub_snd_eq_countMatches content

/-- C6 counterexample: the claim says that an input with a blank line between
the catch header and the `console.error` line is never augmented, but the
pattern's `\s*` spans newlines, so this input receives an insertion and one
counted modification (and the file is rewritten). -/
theorem claim_C6_counterexample :
    add_error_logging_to_file
        ("  \x7d catch (e) \x7b\n\n    console.error(x);\n    res.status(".toList)
      = ("  \x7d catch (e) \x7b\n\n    console.error(x);\n    await logRouteError(error, req).catch(() => \x7b\x7d);\n    res.status(".toList,
         1, true) := by decide

/-- C6 amended: a matched occurrence requires the `console.error` line to be
immediately followed by the `res.status` line (group 2 is a single line ending
in the newline after which group 3 starts), but between the catch header's
opening brace and the `console.error` line any whitespace — including
newlines, hence blank lines — may intervene inside group 1; inputs with such a
blank line are still augmented. -/
theorem claim_C6_amended {s g1 g2 g3 rest : List Char}
    (hm : tryMatch s = some (g1, g2, g3, rest)) :
    (∃ mid, g2 = conLit ++ mid ++ ['\n'] ∧ mid ≠ [] ∧ ∀ c ∈ mid, c ≠ '\n')
    ∧ g3 = resLit
    ∧ s = g1 ++ (g2 ++ (g3 ++ rest))
    ∧ (∃ p ws, g1 = catchLit ++ p ++ brcLit ++ ws ++ ['\n'] ∧
        (∀ c ∈ ws, isPySpace c = true)) := by
  obtain ⟨p, ws, mid, ⟨hp, hpc, hws, hmid, hmidc⟩, hg1, hg2, hg3, hs⟩ :=
    tryMatch_sound hm
  refine ⟨⟨mid, ?_, hmid, hmidc⟩, hg3, hs, ⟨p, ws, ?_, hws⟩⟩
  · rw [hg2]; rfl
  · rw [hg1]; rfl

/-- Witness for the amended C6: the blank-line input matches, with the blank
line absorbed into group 1's whitespace slack. -/
theorem claim_C6_witness :
    tryMatch ("  \x7d catch (e) \x7b\n\n    console.error(x);\n    res.status(".toList)
      = some ("  \x7d catch (e) \x7b\n\n".toList, "    console.error(x);\n".toList,
              resLit, [])
    ∧ ((∃ mid, ("    console.error(x);\n".toList : List Char)
          = conLit ++ mid ++ ['\n'] ∧ mid ≠ [] ∧ ∀ c ∈ mid, c ≠ '\n')
      ∧ (resLit : List Char) = resLit
      ∧ ("  \x7d catch (e) \x7b\n\n    console.error(x);\n    res.status(".toList : List Char)
          = "  \x7d catch (e) \x7b\n\n".toList ++ ("    console.error(x);\n".toList ++ (resLit ++ []))
      ∧ (∃ p ws, ("  \x7d catch (e) \x7b\n\n".toList : List Char)
          = catchLit ++ p ++ brcLit ++ ws ++ ['\n'] ∧
            (∀ c ∈ ws, isPySpace c = true))) :=
  ⟨by decide, claim_C6_amended (by decide)⟩

/-- C7: when the shape has no non-exempt occurrence in the input, the
transform returns the input byte-identically, reports zero modifications,
and performs no write. -/
theorem claim_C7_noop_preservation (content : List Char)
    (h : countMatches content = 0) :
    add_error_logging_to_file content = (content, 0, false) := by
  have h2 : (reSub content).2 = 0 := by
    rw [reSub_snd_eq_countMatches]; exact h
  have h1 : (reSub content).1 = content := reSub_fst_of_snd_zero h2
  unfold add_error_logging_to_file
  simp [h1]

/-- Witness for C7: a file with no catch blocks at all. -/
theorem claim_C7_witness :
    countMatches ("const x = 1;\nmodule.exports = x;\n".toList) = 0
    ∧ add_error_logging_to_file ("const x = 1;\nmodule.exports = x;\n".toList)
        = ("const x = 1;\nmodule.exports = x;\n".toList, 0, false) :=
  ⟨by decide, claim_C7_noop_preservation _ (by decide)⟩

/-- C9: invoked without a path argument, the program prints the usage message,
exits with the non-zero status 1, and never touches a file. -/
theorem claim_C9_usage_error (argv : List String) (h : argv.length < 2) :
    mainStep argv = MainStep.usageError
    ∧ mainExit (mainStep argv) = 1
    ∧ mainExit (mainStep argv) ≠ 0
    ∧ mainPrintsUsage (mainStep argv) = true
    ∧ mainTouchesFile (mainStep argv) = false := by
  have hus : mainStep argv = MainStep.usageError := by
    unfold mainStep
    rw [if_pos h]
  rw [hus]
  exact ⟨rfl, rfl, by decide, rfl, rfl⟩

/-- Witness for C9: invocation with only the program name. -/
theorem claim_C9_witness :
    ([("add-error-logging.py" : String)] : List String).length < 2
    ∧ (mainStep ["add-error-logging.py"] = MainStep.usageError
      ∧ mainExit (mainStep ["add-error-logging.py"]) = 1
      ∧ mainExit (mainStep ["add-error-logging.py"]) ≠ 0
      ∧ mainPrintsUsage (mainStep ["add-error-logging.py"]) = true
      ∧ mainTouchesFile (mainStep ["add-error-logging.py"]) = false) :=
  ⟨by decide, claim_C9_usage_error _ (by decide)⟩

/-- C10 counterexample: the claim says a catch header with different
indentation is never augmented, but the pattern is not anchored to the start
of a line: a header indented with four spaces still contains the two-space
literal mid-line and is augmented. -/
theorem claim_C10_counterexample :
    add_error_logging_to_file
        ("    \x7d catch (e) \x7b\n    console.error(x);\n    res.status(".toList)
      = ("    \x7d catch (e) \x7b\n    console.error(x);\n    await logRouteError(error, req).catch(() => \x7b\x7d);\n    res.status(".toList,
         1, true) := by decide

/-- C10 amended: every matched occurrence's catch header is exactly the
literal `  } catch (`, a nonempty parameter containing no `)`, then `) {` —
so a header lacking the leading closing brace never matches — but the match
may begin in the middle of a line, so headers preceded by extra indentation
are still augmented. -/
theorem claim_C10_amended {s g1 g2 g3 rest : List Char}
    (hm : tryMatch s = some (g1, g2, g3, rest)) :
    ∃ p ws, p ≠ [] ∧ (∀ c ∈ p, c ≠ ')') ∧ (∀ c ∈ ws, isPySpace c = true) ∧
      g1 = catchLit ++ p ++ brcLit ++ ws ++ ['\n'] ∧
      catchLit = "  \x7d catch (".toList ∧ brcLit = ") \x7b".toList := by
  obtain ⟨p, ws, mid, ⟨hp, hpc, hws, hmid, hmidc⟩, hg1, hg2, hg3, hs⟩ :=
    tryMatch_sound hm
  exact ⟨p, ws, hp, hpc, hws, by rw [hg1]; rfl, rfl, rfl⟩

/-- Witness for the amended C10 at the four-space-indented input. -/
theorem claim_C10_witness :
    tryMatch ("  \x7d catch (e) \x7b\n    console.error(x);\n    res.status(extra".toList)
      = some ("  \x7d catch (e) \x7b\n".toList, "    console.error(x);\n".toList,
              resLit, "extra".toList)
    ∧ (∃ p ws, p ≠ [] ∧ (∀ c ∈ p, c ≠ ')') ∧ (∀ c ∈ ws, isPySpace c = true) ∧
        ("  \x7d catch (e) \x7b\n".toList : List Char)
          = catchLit ++ p ++ brcLit ++ ws ++ ['\n'] ∧
        catchLit = "  \x7d catch (".toList ∧ brcLit = ") \x7b".toList) :=
  ⟨by decide,
    @claim_C10_amended
      ("  \x7d catch (e) \x7b\n    console.error(x);\n    res.status(extra".toList)
      ("  \x7d catch (e) \x7b\n".toList) ("    console.error(x);\n".toList)
      resLit ("extra".toList) (by decide)⟩

/-! ## Line structure of the transformation -/

theorem splitLines_ne_nil : ∀ s : List Char, splitLines s ≠ [] := by
  intro s
  cases s with
  | nil => simp [splitLines]
  | cons c t =>
    unfold splitLines
    split <;> simp

theorem splitLines_cons_nl (t : List Char) :
    splitLines ('\n' :: t) = [] :: splitLines t := by
  conv_lhs => unfold splitLines
  rw [if_pos rfl]

theorem splitLines_cons_of_ne {c : Char} (t : List Char) (h : c ≠ '\n') :
    splitLines (c :: t) = (c :: (splitLines t).headD []) :: (splitLines t).tail := by
  conv_lhs => unfold splitLines
  rw [if_neg h]

/-- A newline splits the line list of a concatenation. -/
theorem splitLines_append_nl :
    ∀ (u v : List Char), splitLines (u ++ '\n' :: v) = splitLines u ++ splitLines v := by
  intro u
  induction u with
  | nil =>
    intro v
    rw [List.nil_append, splitLines_cons_nl]
    rfl
  | cons c u' ih =>
    intro v
    by_cases hc : c = '\n'
    · subst hc
      rw [List.cons_append, splitLines_cons_nl, splitLines_cons_nl, ih, List.cons_append]
    · rw [List.cons_append, splitLines_cons_of_ne _ hc, splitLines_cons_of_ne _ hc, ih]
      obtain ⟨a, A', hA⟩ := List.exists_cons_of_ne_nil (splitLines_ne_nil u')
      rw [hA]
      simp

/-- A newline-free text forms a single line. -/
theorem splitLines_no_nl :
    ∀ {u : List Char}, (∀ c ∈ u, c ≠ '\n') → splitLines u = [u] := by
  intro u
  induction u with
  | nil => intro _; rfl
  | cons c t ih =>
    intro h
    rw [splitLines_cons_of_ne _ (h c (by simp)), ih (fun d hd => h d (by simp [hd]))]
    rfl

/-- Prepending a newline-free text extends the first line. -/
theorem splitLines_append_no_nl :
    ∀ {u : List Char} (v : List Char), (∀ c ∈ u, c ≠ '\n') →
      splitLines (u ++ v) =
        (u ++ (splitLines v).headD []) :: (splitLines v).tail := by
  intro u
  induction u with
  | nil =>
    intro v _
    rw [List.nil_append, List.nil_append]
    obtain ⟨a, A', hA⟩ := List.exists_cons_of_ne_nil (splitLines_ne_nil v)
    rw [hA]
    rfl
  | cons c t ih =>
    intro v h
    rw [List.cons_append, splitLines_cons_of_ne _ (h c (by simp)),
      ih v (fun d hd => h d (by simp [hd]))]
    simp

theorem LineIns.refl (ins : List Char) : ∀ A : List (List Char), LineIns ins A A
  | [] => LineIns.nil
  | l :: t => LineIns.copy l (LineIns.refl ins t)

theorem LineIns.append_left {ins : List Char} {X Y : List (List Char)}
    (h : LineIns ins X Y) :
    ∀ A : List (List Char), LineIns ins (A ++ X) (A ++ Y)
  | [] => h
  | l :: t => LineIns.copy l (LineIns.append_left h t)

theorem LineIns.sublist {ins : List Char} {A B : List (List Char)}
    (h : LineIns ins A B) : A.Sublist B := by
  induction h with
  | nil => exact List.Sublist.refl _
  | copy l _ ih => exact List.Sublist.cons₂ l ih
  | insert _ ih => exact List.Sublist.cons _ ih

/-- The scan preserves the first line and only inserts copies of the logging
line among the remaining lines. -/
theorem reSub_lineIns (s : List Char) :
    ∃ f T1 T2, splitLines s = f :: T1 ∧ splitLines (reSub s).1 = f :: T2 ∧
      LineIns insLine T1 T2 := by
  have H : ∀ (n : Nat) (u : List Char), u.length ≤ n →
      ∃ f T1 T2, splitLines u = f :: T1 ∧ splitLines (reSub u).1 = f :: T2 ∧
        LineIns insLine T1 T2 := by
    intro n
    induction n with
    | zero =>
      intro u hu
      have hnil : u = [] := List.length_eq_zero.mp (Nat.le_zero.mp hu)
      subst hnil
      exact ⟨[], [], [], rfl, rfl, LineIns.nil⟩
    | succ n ih =>
      intro u hu
      cases htm : tryMatch u with
      | none =>
        cases u with
        | nil => exact ⟨[], [], [], rfl, rfl, LineIns.nil⟩
        | cons c t =>
          simp only [List.length_cons] at hu
          obtain ⟨f, T1, T2, h1, h2, hLI⟩ := ih t (by omega)
          rw [reSub_none htm]
          by_cases hc : c = '\n'
          · subst hc
            rw [splitLines_cons_nl, splitLines_cons_nl, h1, h2]
            exact ⟨[], f :: T1, f :: T2, rfl, rfl, LineIns.copy f hLI⟩
          · rw [splitLines_cons_of_ne _ hc, splitLines_cons_of_ne _ hc, h1, h2]
            exact ⟨c :: f, T1, T2, rfl, rfl, hLI⟩
      | some x =>
        obtain ⟨g1, g2, g3, rest⟩ := x
        have hlen := tryMatch_rest_length htm
        obtain ⟨p, ws, mid, hparts, hg1, hg2, hg3, hs⟩ := tryMatch_sound htm
        obtain ⟨f, T1, T2, h1, h2, hLI⟩ := ih rest (by omega)
        rw [reSub_match htm]
        -- decompose the input's line list
        have hresnl : ∀ c ∈ resLit, c ≠ '\n' := by decide
        have hsplit_in : splitLines u =
            splitLines (catchLit ++ p ++ brcLit ++ ws) ++
              (splitLines (conLit ++ mid) ++ ((resLit ++ f) :: T1)) := by
          rw [hs, hg1, hg2, hg3, mkG1, mkG2]
          have e1 : catchLit ++ p ++ brcLit ++ ws ++ ['\n'] ++
              (conLit ++ mid ++ ['\n'] ++ (resLit ++ rest))
              = (catchLit ++ p ++ brcLit ++ ws) ++ '\n' ::
                  ((conLit ++ mid) ++ '\n' :: (resLit ++ rest)) := by
            simp [List.append_assoc]
          rw [e1, splitLines_append_nl, splitLines_append_nl,
            splitLines_append_no_nl _ hresnl, h1]
          rfl
        obtain ⟨a, A', hA⟩ :=
          List.exists_cons_of_ne_nil (splitLines_ne_nil (catchLit ++ p ++ brcLit ++ ws))
        unfold replacement
        split
        · -- exempt occurrence: the span is emitted unchanged
          have hsplit_out : splitLines ((g1 ++ g2 ++ g3) ++ (reSub rest).1) =
              splitLines (catchLit ++ p ++ brcLit ++ ws) ++
                (splitLines (conLit ++ mid) ++ ((resLit ++ f) :: T2)) := by
            rw [hg1, hg2, hg3, mkG1, mkG2]
            have e2 : catchLit ++ p ++ brcLit ++ ws ++ ['\n'] ++
                (conLit ++ mid ++ ['\n']) ++ resLit ++ (reSub rest).1
                = (catchLit ++ p ++ brcLit ++ ws) ++ '\n' ::
                    ((conLit ++ mid) ++ '\n' :: (resLit ++ (reSub rest).1)) := by
              simp [List.append_assoc]
            rw [e2, splitLines_append_nl, splitLines_append_nl,
              splitLines_append_no_nl _ hresnl, h2]
            rfl
          rw [hsplit_in, hsplit_out, hA]
          refine ⟨a, _, _, by rw [List.cons_append], by rw [List.cons_append], ?_⟩
          exact LineIns.append_left
            (LineIns.append_left (LineIns.copy _ hLI) (splitLines (conLit ++ mid))) A'
        · -- augmented occurrence: exactly the logging line is inserted
          have hinsnl : ∀ c ∈ insLine, c ≠ '\n' := by decide
          have hsplit_out : splitLines ((g1 ++ g2 ++ insStr ++ g3) ++ (reSub rest).1) =
              splitLines (catchLit ++ p ++ brcLit ++ ws) ++
                (splitLines (conLit ++ mid) ++
                  (insLine :: ((resLit ++ f) :: T2))) := by
            rw [hg1, hg2, hg3, mkG1, mkG2, insStr]
            have e2 : catchLit ++ p ++ brcLit ++ ws ++ ['\n'] ++
                (conLit ++ mid ++ ['\n']) ++ (insLine ++ ['\n']) ++ resLit ++
                  (reSub rest).1
                = (catchLit ++ p ++ brcLit ++ ws) ++ '\n' ::
                    ((conLit ++ mid) ++ '\n' ::
                      (insLine ++ '\n' :: (resLit ++ (reSub rest).1))) := by
              simp [List.append_assoc]
            rw [e2, splitLines_append_nl, splitLines_append_nl, splitLines_append_nl,
              splitLines_no_nl hinsnl, splitLines_append_no_nl _ hresnl, h2]
            rfl
          rw [hsplit_in, hsplit_out, hA]
          refine ⟨a, _, _, by rw [List.cons_append], by rw [List.cons_append], ?_⟩
          exact LineIns.append_left
            (LineIns.append_left (LineIns.insert (LineIns.copy _ hLI))
              (splitLines (conLit ++ mid))) A'
  exact H s.length s (le_refl _)

/-- C8: the transform only inserts whole copies of the fixed logging line at
line boundaries: the output's line list is the input's line list with copies
of that line inserted, so every input line appears in the output unchanged
and in its original relative order (the input's line list is a sublist of the
output's). -/
theorem claim_C8_insertion_only (content : List Char) :
    LineIns insLine (splitLines content)
      (splitLines (add_error_logging_to_file content).1)
    ∧ (splitLines content).Sublist
        (splitLines (add_error_logging_to_file content).1) := by
  unfold add_error_logging_to_file
  by_cases h : (reSub content).1 = content
  · simp only [h, if_true]
    exact ⟨LineIns.refl _ _, List.Sublist.refl _⟩
  · simp only [h, if_false]
    obtain ⟨f, T1, T2, h1, h2, hLI⟩ := reSub_lineIns content
    rw [h1, h2]
    have hfull : LineIns insLine (f :: T1) (f :: T2) := LineIns.copy f hLI
    exact ⟨hfull, LineIns.sublist hfull⟩

/-! ## Failure lemmas: no match starts inside a freshly augmented span -/

theorem tryMatch_none_of_catch_fail {x : List Char}
    (h : parseLit catchLit x = none) : tryMatch x = none := by
  unfold tryMatch
  rw [h]

theorem parseLit_none_of_not_starting {pat s : List Char}
    (h : ¬ ∃ r, s = pat ++ r) : parseLit pat s = none := by
  cases hp : parseLit pat s with
  | none => rfl
  | some r => exact absurd ⟨r, parseLit_sound hp⟩ h

theorem tryMatch_none_of_blocked {u w : List Char}
    (h : ((catchLit.zip u).any fun pr => pr.1 != pr.2) = true) :
    tryMatch (u ++ w) = none :=
  tryMatch_none_of_catch_fail (parseLit_none_of_zipne _ _ _ h)

theorem prefix_of_append_le {a u w : List Char} (h : a <+: u ++ w)
    (hle : a.length ≤ u.length) : a <+: u := by
  obtain ⟨t, ht⟩ := h
  have htake : a = (u ++ w).take a.length := by
    rw [← ht, List.take_append_of_le_length (le_refl _), List.take_length]
  rw [List.take_append_of_le_length hle] at htake
  rw [htake]
  exact List.take_prefix _ _

theorem dropWhile_eq_nil_of_all {p : Char → Bool} :
    ∀ {l : List Char}, (∀ c ∈ l, p c = true) → l.dropWhile p = [] := by
  intro l
  induction l with
  | nil => intro _; rfl
  | cons a t ih =>
    intro h
    rw [List.dropWhile_cons_of_pos (h a (by simp))]
    exact ih (fun c hc => h c (by simp [hc]))

/-- No occurrence can begin inside the whitespace slack of a catch header:
the literal's `}` finds no matching character among whitespace. -/
theorem tryMatch_none_in_ws (ws2 : List Char)
    (hws2 : ∀ c ∈ ws2, isPySpace c = true) (X : List Char) :
    tryMatch (ws2 ++ '\n' :: (conLit ++ X)) = none := by
  apply tryMatch_none_of_catch_fail
  apply parseLit_none_of_not_starting
  rintro ⟨r, hr⟩
  match ws2, hws2 with
  | [], _ =>
    rw [List.nil_append] at hr
    have h0 := congrArg (fun l => l[0]?) hr
    simp only at h0
    have h1 : (catchLit ++ r)[0]? = some ' ' := by
      rw [List.getElem?_append_left (by simp [catchLit])]
      decide
    rw [h1] at h0
    simp at h0
  | [a], hws2 =>
    rw [List.cons_append, List.nil_append] at hr
    have h0 := congrArg (fun l => l[1]?) hr
    simp only at h0
    have h1 : (catchLit ++ r)[1]? = some ' ' := by
      rw [List.getElem?_append_left (by simp [catchLit])]
      decide
    rw [h1] at h0
    simp at h0
  | a :: b :: ws3, hws2 =>
    have h0 := congrArg (fun l => l[2]?) hr
    simp only at h0
    have h1 : (catchLit ++ r)[2]? = some '\x7d' := by
      rw [List.getElem?_append_left (by simp [catchLit])]
      decide
    rw [h1] at h0
    have h2 : (ws3 ++ '\n' :: (conLit ++ X))[0]? = some '\x7d' := by
      simpa using h0
    cases ws3 with
    | nil =>
      simp at h2
    | cons d ws4 =>
      simp at h2
      have hd := hws2 d (by simp)
      rw [h2] at hd
      exact absurd hd (by decide)

theorem parseLit_resLit_insStr (X : List Char) :
    parseLit resLit (insStr ++ X) = none :=
  parseLit_none_of_zipne resLit insStr X (by decide)

/-- No occurrence can begin inside the catch parameter of a freshly augmented
span: the parse either dies early or reaches the inserted `await` line where
`    res.status(` is required. -/
theorem tryMatch_none_in_param (p2 ws mid : List Char)
    (hp2 : ∀ c ∈ p2, c ≠ ')')
    (hws : ∀ c ∈ ws, isPySpace c = true)
    (hmid : mid ≠ []) (hmidc : ∀ c ∈ mid, c ≠ '\n') (w : List Char) :
    tryMatch (p2 ++ (brcLit ++ (ws ++ '\n' :: (conLit ++
      (mid ++ '\n' :: (insStr ++ (resLit ++ w))))))) = none := by
  by_cases hpre : ∃ r, p2 ++ (brcLit ++ (ws ++ '\n' :: (conLit ++
      (mid ++ '\n' :: (insStr ++ (resLit ++ w)))))) = catchLit ++ r
  · obtain ⟨r, hr⟩ := hpre
    by_cases hlen : p2.length < catchLit.length
    · exfalso
      have h0 := congrArg (fun l => l[p2.length]?) hr
      simp only at h0
      rw [List.getElem?_append_right (le_refl _), Nat.sub_self,
        List.getElem?_append_left hlen] at h0
      have hL : (brcLit ++ (ws ++ '\n' :: (conLit ++
          (mid ++ '\n' :: (insStr ++ (resLit ++ w))))))[0]? = some ')' := rfl
      rw [hL] at h0
      have hnop : ∀ i, i < 11 → catchLit[i]? ≠ some ')' := by decide
      have hlen' : p2.length < 11 := by simpa [catchLit] using hlen
      exact hnop p2.length hlen' h0.symm
    · push_neg at hlen
      have hpre2 : catchLit <+: p2 :=
        prefix_of_append_le ⟨r, hr.symm⟩ hlen
      obtain ⟨p2', rfl⟩ := hpre2
      have hp2' : ∀ c ∈ p2', c ≠ ')' := fun c hc => hp2 c (by simp [hc])
      by_cases hq : p2' = []
      · subst hq
        unfold tryMatch
        have hshape : (catchLit ++ []) ++ (brcLit ++ (ws ++ '\n' :: (conLit ++
            (mid ++ '\n' :: (insStr ++ (resLit ++ w))))))
            = catchLit ++ (')' :: (' ' :: ('\x7b' :: (ws ++ '\n' :: (conLit ++
                (mid ++ '\n' :: (insStr ++ (resLit ++ w)))))))) := by
          simp [brcLit]
        rw [hshape, parseLit_self]
        simp only
        rw [List.takeWhile_cons_of_neg (by simp)]
        simp
      · have heq : (catchLit ++ p2') ++ (brcLit ++ (ws ++ '\n' :: (conLit ++
            (mid ++ '\n' :: (insStr ++ (resLit ++ w))))))
            = mkG1 p2' ws ++ (mkG2 mid ++ (insStr ++ (resLit ++ w))) := by
          simp [mkG1, mkG2, List.append_assoc]
        rw [heq]
        exact tryMatch_structured_none ⟨hq, hp2', hws, hmid, hmidc⟩
          (parseLit_resLit_insStr (resLit ++ w))
  · exact tryMatch_none_of_catch_fail (parseLit_none_of_not_starting hpre)

theorem tryMatch_none_of_empty_param {x r1 : List Char}
    (hx : parseLit catchLit x = some r1)
    (h1 : r1.takeWhile (fun c => c != ')') = []) : tryMatch x = none := by
  unfold tryMatch
  rw [hx]
  simp only
  rw [h1]
  simp

theorem tryMatch_none_of_brc_fail {x r1 : List Char}
    (hx : parseLit catchLit x = some r1)
    (h1 : parseLit brcLit (r1.dropWhile (fun c => c != ')')) = none) :
    tryMatch x = none := by
  unfold tryMatch
  rw [hx]
  simp only
  by_cases hp : r1.takeWhile (fun c => c != ')') = []
  · rw [hp]
    simp
  · rw [if_neg hp, h1]

theorem tryMatch_none_of_no_nl {x r1 r3 : List Char}
    (hx : parseLit catchLit x = some r1)
    (h1 : parseLit brcLit (r1.dropWhile (fun c => c != ')')) = some r3)
    (h2 : (r3.takeWhile isPySpace).reverse.dropWhile (fun c => c != '\n') = []) :
    tryMatch x = none := by
  unfold tryMatch
  rw [hx]
  simp only
  by_cases hp : r1.takeWhile (fun c => c != ')') = []
  · rw [hp]
    simp
  · rw [if_neg hp, h1]
    simp only
    rw [h2]
    simp

theorem tryMatch_none_of_con_fail {x r1 r3 : List Char}
    (hx : parseLit catchLit x = some r1)
    (h1 : parseLit brcLit (r1.dropWhile (fun c => c != ')')) = some r3)
    (h3 : parseLit conLit
        (((r3.takeWhile isPySpace).reverse.takeWhile (fun c => c != '\n')).reverse
          ++ r3.dropWhile isPySpace) = none) :
    tryMatch x = none := by
  unfold tryMatch
  rw [hx]
  simp only
  by_cases hp : r1.takeWhile (fun c => c != ')') = []
  · rw [hp]
    simp
  · rw [if_neg hp, h1]
    simp only
    by_cases hdw : (r3.takeWhile isPySpace).reverse.dropWhile (fun c => c != '\n') = []
    · rw [hdw]
      simp
    · rw [if_neg hdw, h3]

theorem mem_takeWhile_mem {p : Char → Bool} :
    ∀ {l : List Char} {c : Char}, c ∈ l.takeWhile p → c ∈ l := by
  intro l
  induction l with
  | nil => intro c h; simp at h
  | cons a t ih =>
    intro c h
    by_cases ha : p a
    · rw [List.takeWhile_cons_of_pos ha] at h
      rcases List.mem_cons.mp h with rfl | h
      · simp
      · exact List.mem_cons_of_mem a (ih h)
    · rw [List.takeWhile_cons_of_neg ha] at h
      simp at h

/-- No occurrence can begin inside the remainder of the `console.error` line
of a freshly augmented span: every way the parse can progress runs into the
inserted `await` line and fails. -/
theorem tryMatch_none_in_mid (m2 : List Char)
    (hm2 : ∀ c ∈ m2, c ≠ '\n') (w : List Char) :
    tryMatch (m2 ++ '\n' :: (insStr ++ (resLit ++ w))) = none := by
  by_cases hpre : ∃ r, m2 ++ '\n' :: (insStr ++ (resLit ++ w)) = catchLit ++ r
  case neg => exact tryMatch_none_of_catch_fail (parseLit_none_of_not_starting hpre)
  obtain ⟨r, hr⟩ := hpre
  by_cases hlen : m2.length < catchLit.length
  · exfalso
    have h0 := congrArg (fun l => l[m2.length]?) hr
    simp only at h0
    rw [List.getElem?_append_right (le_refl _), Nat.sub_self,
      List.getElem?_append_left hlen] at h0
    have hL : ('\n' :: (insStr ++ (resLit ++ w)))[0]? = some '\n' := rfl
    rw [hL] at h0
    have hnonl : ∀ i, i < 11 → catchLit[i]? ≠ some '\n' := by decide
    have hlen' : m2.length < 11 := by simpa [catchLit] using hlen
    exact hnonl m2.length hlen' h0.symm
  push_neg at hlen
  have hpre2 : catchLit <+: m2 := prefix_of_append_le ⟨r, hr.symm⟩ hlen
  obtain ⟨m3, rfl⟩ := hpre2
  have hm3 : ∀ c ∈ m3, c ≠ '\n' := fun c hc => hm2 c (by simp [hc])
  have hx : parseLit catchLit ((catchLit ++ m3) ++ '\n' :: (insStr ++ (resLit ++ w)))
      = some (m3 ++ '\n' :: (insStr ++ (resLit ++ w))) := by
    rw [List.append_assoc]
    exact parseLit_self _ _
  cases hdp : m3.dropWhile (fun c => c != ')') with
  | nil =>
    -- `m3` has no `)`: the parameter run crosses into the inserted line and
    -- stops at the `)` closing `(error, req`, after which `) {` fails at `.`
    have hm3p : ∀ c ∈ m3, (c != ')') = true := by
      intro c hc
      have htw : m3.takeWhile (fun c => c != ')') = m3 := by
        conv_rhs => rw [← List.takeWhile_append_dropWhile (fun c => c != ')') m3]
        rw [hdp]
        simp
      rw [← htw] at hc
      exact mem_takeWhile_pred (p := fun c => c != ')') hc
    have hins : insStr = "    await logRouteError(error, req".toList ++ ')' ::
        ".catch(() => \x7b\x7d);\n".toList := by decide
    have hspan := takeWhile_split (p := fun c => c != ')')
      (m3 ++ '\n' :: "    await logRouteError(error, req".toList) ')'
      (".catch(() => \x7b\x7d);\n".toList ++ (resLit ++ w))
      (by
        intro c hc
        rcases List.mem_append.mp hc with h | h
        · exact hm3p c h
        · rcases List.mem_cons.mp h with rfl | h
          · decide
          · exact (by decide :
              ∀ c ∈ "    await logRouteError(error, req".toList, (c != ')') = true) c h)
      (by decide)
    have hshape : m3 ++ '\n' :: (insStr ++ (resLit ++ w))
        = (m3 ++ '\n' :: "    await logRouteError(error, req".toList) ++ ')' ::
            (".catch(() => \x7b\x7d);\n".toList ++ (resLit ++ w)) := by
      rw [hins]
      simp [List.append_assoc]
    apply tryMatch_none_of_brc_fail hx
    rw [hshape, hspan.2]
    rfl
  | cons d tl =>
    have hd : d = ')' := by
      have := dropWhile_head_false hdp
      simpa using this
    subst hd
    have hm3eq : m3 = m3.takeWhile (fun c => c != ')') ++ ')' :: tl := by
      conv_lhs => rw [← List.takeWhile_append_dropWhile (fun c => c != ')') m3]
      rw [hdp]
    have hspan := takeWhile_split (p := fun c => c != ')')
      (m3.takeWhile (fun c => c != ')')) ')'
      (tl ++ '\n' :: (insStr ++ (resLit ++ w)))
      (fun c hc => mem_takeWhile_pred (p := fun c => c != ')') hc) (by decide)
    have hshape : m3 ++ '\n' :: (insStr ++ (resLit ++ w))
        = m3.takeWhile (fun c => c != ')') ++ ')' ::
            (tl ++ '\n' :: (insStr ++ (resLit ++ w))) := by
      conv_lhs => rw [hm3eq]
      simp [List.append_assoc]
    by_cases hmA0 : m3.takeWhile (fun c => c != ')') = []
    · apply tryMatch_none_of_empty_param hx
      rw [hshape, hmA0, List.nil_append, List.takeWhile_cons_of_neg (by decide)]
    · cases tl with
      | nil =>
        apply tryMatch_none_of_brc_fail hx
        rw [hshape, hspan.2]
        rfl
      | cons e tl2 =>
        by_cases he : e = ' '
        · subst he
          cases tl2 with
          | nil =>
            apply tryMatch_none_of_brc_fail hx
            rw [hshape, hspan.2]
            rfl
          | cons f tl3 =>
            by_cases hf : f = '\x7b'
            · subst hf
              -- `) {` matches from `m3`'s own characters; the whitespace scan
              -- then decides the failure
              have htl3 : ∀ c ∈ tl3, c ≠ '\n' := by
                intro c hc
                apply hm3
                rw [hm3eq]
                simp [hc]
              have hbrc : parseLit brcLit
                  ((m3 ++ '\n' :: (insStr ++ (resLit ++ w))).dropWhile
                    (fun c => c != ')'))
                  = some (tl3 ++ '\n' :: (insStr ++ (resLit ++ w))) := by
                rw [hshape, hspan.2]
                rfl
              cases hdq : tl3.dropWhile isPySpace with
              | cons g gt =>
                -- a non-whitespace character stops the run before any newline
                have hg : isPySpace g = false := dropWhile_head_false hdq
                have htl3eq : tl3 = tl3.takeWhile isPySpace ++ g :: gt := by
                  conv_lhs => rw [← List.takeWhile_append_dropWhile isPySpace tl3]
                  rw [hdq]
                have hspan2 := takeWhile_split (p := isPySpace)
                  (tl3.takeWhile isPySpace) g
                  (gt ++ '\n' :: (insStr ++ (resLit ++ w)))
                  (fun c hc => mem_takeWhile_pred (p := isPySpace) hc) hg
                apply tryMatch_none_of_no_nl hx hbrc
                have hshape2 : tl3 ++ '\n' :: (insStr ++ (resLit ++ w))
                    = tl3.takeWhile isPySpace ++ g ::
                        (gt ++ '\n' :: (insStr ++ (resLit ++ w))) := by
                  conv_lhs => rw [htl3eq]
                  simp [List.append_assoc]
                rw [hshape2, hspan2.1]
                apply dropWhile_eq_nil_of_all
                intro c hc
                have hc1 : c ∈ tl3.takeWhile isPySpace := List.mem_reverse.mp hc
                have hc2 : c ∈ tl3 := mem_takeWhile_mem hc1
                exact bne_true_of_ne (htl3 c hc2)
              | nil =>
                -- the rest of the console line is whitespace: the run crosses
                -- the newline and `conLit` fails on the inserted `await`
                have htl3ws : ∀ c ∈ tl3, isPySpace c = true := by
                  intro c hc
                  have htw : tl3.takeWhile isPySpace = tl3 := by
                    conv_rhs => rw [← List.takeWhile_append_dropWhile isPySpace tl3]
                    rw [hdq]
                    simp
                  rw [← htw] at hc
                  exact mem_takeWhile_pred hc
                have hins2 : insStr = [' ', ' ', ' ', ' '] ++ 'a' ::
                    "wait logRouteError(error, req).catch(() => \x7b\x7d);\n".toList := by
                  decide
                have hspan3 := takeWhile_split (p := isPySpace)
                  (tl3 ++ '\n' :: [' ', ' ', ' ', ' ']) 'a'
                  ("wait logRouteError(error, req).catch(() => \x7b\x7d);\n".toList
                    ++ (resLit ++ w))
                  (by
                    intro c hc
                    rcases List.mem_append.mp hc with h | h
                    · exact htl3ws c h
                    · exact (by decide :
                        ∀ d ∈ ('\n' :: [' ', ' ', ' ', ' '] : List Char),
                          isPySpace d = true) c h)
                  (by decide)
                have hshape3 : tl3 ++ '\n' :: (insStr ++ (resLit ++ w))
                    = (tl3 ++ '\n' :: [' ', ' ', ' ', ' ']) ++ 'a' ::
                        ("wait logRouteError(error, req).catch(() => \x7b\x7d);\n".toList
                          ++ (resLit ++ w)) := by
                  conv_lhs => rw [hins2]
                  simp [List.append_assoc]
                have hrev : (tl3 ++ '\n' :: [' ', ' ', ' ', ' ']).reverse
                    = [' ', ' ', ' ', ' '] ++ '\n' :: tl3.reverse := by
                  simp
                have hspan4 := takeWhile_split (p := fun c => c != '\n')
                  ([' ', ' ', ' ', ' ']) '\n' tl3.reverse (by decide) (by simp)
                apply tryMatch_none_of_con_fail hx hbrc
                rw [hshape3, hspan3.1, hspan3.2, hrev, hspan4.1]
                have hfin : (([' ', ' ', ' ', ' '] : List Char)).reverse ++ 'a' ::
                    ("wait logRouteError(error, req).catch(() => \x7b\x7d);\n".toList
                      ++ (resLit ++ w))
                    = insStr ++ (resLit ++ w) := by
                  rw [hins2]
                  rfl
                rw [hfin]
                exact parseLit_none_of_zipne conLit insStr (resLit ++ w) (by decide)
            · apply tryMatch_none_of_brc_fail hx
              rw [hshape, hspan.2]
              have : parseLit brcLit (')' :: (' ' :: f :: tl3 ++ '\n' ::
                  (insStr ++ (resLit ++ w)))) = parseLit ['\x7b'] (f :: tl3 ++ '\n' ::
                  (insStr ++ (resLit ++ w))) := rfl
              rw [this]
              simp only [parseLit]
              rw [if_neg (fun hc => hf hc.symm)]
        · apply tryMatch_none_of_brc_fail hx
          rw [hshape, hspan.2]
          have : parseLit brcLit (')' :: (e :: tl2 ++ '\n' ::
              (insStr ++ (resLit ++ w)))) = parseLit [' ', '\x7b'] (e :: tl2 ++ '\n' ::
              (insStr ++ (resLit ++ w))) := rfl
          rw [this]
          simp only [parseLit]
          rw [if_neg (fun hc => he hc.symm)]

/-! ## No occurrence starts anywhere inside an augmented span -/

theorem catchLit_tails_blocked :
    ∀ s2 ∈ catchLit.tails, s2 ≠ [] → s2 ≠ catchLit →
      ((catchLit.zip s2).any fun pr => pr.1 != pr.2) = true := by decide

theorem brcLit_tails_blocked :
    ∀ s2 ∈ brcLit.tails, s2 ≠ [] →
      ((catchLit.zip s2).any fun pr => pr.1 != pr.2) = true := by decide

theorem conLit_tails_blocked :
    ∀ s2 ∈ conLit.tails, s2 ≠ [] →
      ((catchLit.zip s2).any fun pr => pr.1 != pr.2) = true := by decide

theorem insRes_tails_blocked :
    ∀ s2 ∈ (insStr ++ resLit).tails, s2 ≠ [] →
      ((catchLit.zip s2).any fun pr => pr.1 != pr.2) = true := by decide

theorem nl_blocked :
    ((catchLit.zip ['\n']).any fun pr => pr.1 != pr.2) = true := by decide

theorem suffix_append_cases {s2 X Y : List Char} (h : s2 <:+ X ++ Y) :
    s2 <:+ Y ∨ ∃ x2, x2 <:+ X ∧ x2 ≠ [] ∧ s2 = x2 ++ Y := by
  induction X with
  | nil => exact Or.inl (by simpa using h)
  | cons x X' ih =>
    rw [List.cons_append, List.suffix_cons_iff] at h
    rcases h with h | h
    · exact Or.inr ⟨x :: X', List.suffix_refl _, by simp, by rw [h, List.cons_append]⟩
    · rcases ih h with h | ⟨x2, hx2, hne, heq⟩
      · exact Or.inl h
      · exact Or.inr ⟨x2, hx2.trans ⟨[x], rfl⟩, hne, heq⟩

/-- Central failure lemma: the matcher fails at every position strictly inside
(and at the head of) a freshly augmented span, whatever text follows it. -/
theorem tryMatch_none_inside_chunk {p ws mid : List Char}
    (hparts : IsMatchParts p ws mid) (w : List Char) :
    ∀ s2, s2 <:+ (mkG1 p ws ++ (mkG2 mid ++ (insStr ++ resLit))) → s2 ≠ [] →
      tryMatch (s2 ++ w) = none := by
  obtain ⟨hp, hpc, hws, hmid, hmidc⟩ := hparts
  intro s2 hsuf hne
  have hchunk : mkG1 p ws ++ (mkG2 mid ++ (insStr ++ resLit))
      = catchLit ++ (p ++ (brcLit ++ (ws ++ (['\n'] ++ (conLit ++
          (mid ++ (['\n'] ++ (insStr ++ resLit)))))))) := by
    simp [mkG1, mkG2, List.append_assoc]
  rw [hchunk] at hsuf
  rcases suffix_append_cases hsuf with h1 | ⟨x2, hx2, hxne, rfl⟩
  · rcases suffix_append_cases h1 with h2 | ⟨p2, hp2, hpne, rfl⟩
    · rcases suffix_append_cases h2 with h3 | ⟨b2, hb2, hbne, rfl⟩
      · rcases suffix_append_cases h3 with h4 | ⟨ws2, hws2, hwsne, rfl⟩
        · rcases suffix_append_cases h4 with h5 | ⟨n2, hn2, hnne, rfl⟩
          · rcases suffix_append_cases h5 with h6 | ⟨c2, hc2, hcne, rfl⟩
            · rcases suffix_append_cases h6 with h7 | ⟨m2, hm2, hmne, rfl⟩
              · rcases suffix_append_cases h7 with h8 | ⟨n3, hn3, hnne3, rfl⟩
                · -- inside `insStr ++ resLit`
                  apply tryMatch_none_of_blocked
                  exact insRes_tails_blocked s2 ((List.mem_tails _ _).mpr h8) hne
                · -- at the newline ending the console line
                  have hn : n3 = ['\n'] := by
                    rcases List.suffix_cons_iff.mp hn3 with h | h
                    · exact h
                    · exact absurd (List.suffix_nil.mp h) hnne3
                  subst hn
                  have hshape : (['\n'] ++ (insStr ++ resLit)) ++ w
                      = ['\n'] ++ ((insStr ++ resLit) ++ w) := by
                    simp [List.append_assoc]
                  rw [hshape]
                  exact tryMatch_none_of_blocked nl_blocked
              · -- inside `mid`
                have hm2c : ∀ c ∈ m2, c ≠ '\n' :=
                  fun c hc => hmidc c (hm2.subset hc)
                have hshape : (m2 ++ (['\n'] ++ (insStr ++ resLit))) ++ w
                    = m2 ++ '\n' :: (insStr ++ (resLit ++ w)) := by
                  simp [List.append_assoc]
                rw [hshape]
                exact tryMatch_none_in_mid m2 hm2c w
            · -- inside `conLit`
              have hshape : (c2 ++ (mid ++ (['\n'] ++ (insStr ++ resLit)))) ++ w
                  = c2 ++ ((mid ++ (['\n'] ++ (insStr ++ resLit))) ++ w) := by
                simp [List.append_assoc]
              rw [hshape]
              apply tryMatch_none_of_blocked
              exact conLit_tails_blocked c2 ((List.mem_tails _ _).mpr hc2) hcne
          · -- at the newline ending the catch header
            have hn : n2 = ['\n'] := by
              rcases List.suffix_cons_iff.mp hn2 with h | h
              · exact h
              · exact absurd (List.suffix_nil.mp h) hnne
            subst hn
            have hshape : (['\n'] ++ (conLit ++ (mid ++ (['\n'] ++
                (insStr ++ resLit))))) ++ w
                = ['\n'] ++ ((conLit ++ (mid ++ (['\n'] ++ (insStr ++ resLit)))) ++ w) := by
              simp [List.append_assoc]
            rw [hshape]
            exact tryMatch_none_of_blocked nl_blocked
        · -- inside the whitespace slack
          have hws2c : ∀ c ∈ ws2, isPySpace c = true :=
            fun c hc => hws c (hws2.subset hc)
          have hshape : (ws2 ++ (['\n'] ++ (conLit ++ (mid ++ (['\n'] ++
              (insStr ++ resLit)))))) ++ w
              = ws2 ++ '\n' :: (conLit ++ ((mid ++ (['\n'] ++ (insStr ++ resLit))) ++ w)) := by
            simp [List.append_assoc]
          rw [hshape]
          exact tryMatch_none_in_ws ws2 hws2c _
      · -- inside `) {`
        have hshape : (b2 ++ (ws ++ (['\n'] ++ (conLit ++ (mid ++ (['\n'] ++
            (insStr ++ resLit))))))) ++ w
            = b2 ++ ((ws ++ (['\n'] ++ (conLit ++ (mid ++ (['\n'] ++
                (insStr ++ resLit)))))) ++ w) := by
          simp [List.append_assoc]
        rw [hshape]
        apply tryMatch_none_of_blocked
        exact brcLit_tails_blocked b2 ((List.mem_tails _ _).mpr hb2) hbne
    · -- inside the catch parameter
      have hp2c : ∀ c ∈ p2, c ≠ ')' := fun c hc => hpc c (hp2.subset hc)
      have hshape : (p2 ++ (brcLit ++ (ws ++ (['\n'] ++ (conLit ++ (mid ++
          (['\n'] ++ (insStr ++ resLit)))))))) ++ w
          = p2 ++ (brcLit ++ (ws ++ '\n' :: (conLit ++ (mid ++ '\n' ::
              (insStr ++ (resLit ++ w)))))) := by
        simp [List.append_assoc]
      rw [hshape]
      exact tryMatch_none_in_param p2 ws mid hp2c hws hmid hmidc w
  · -- inside (or at the head of) the catch literal
    by_cases hfull : x2 = catchLit
    · subst hfull
      have hshape : (catchLit ++ (p ++ (brcLit ++ (ws ++ (['\n'] ++ (conLit ++
          (mid ++ (['\n'] ++ (insStr ++ resLit))))))))) ++ w
          = mkG1 p ws ++ (mkG2 mid ++ (insStr ++ (resLit ++ w))) := by
        simp [mkG1, mkG2, List.append_assoc]
      rw [hshape]
      exact tryMatch_structured_none ⟨hp, hpc, hws, hmid, hmidc⟩
        (parseLit_resLit_insStr (resLit ++ w))
    · have hshape : (x2 ++ (p ++ (brcLit ++ (ws ++ (['\n'] ++ (conLit ++
          (mid ++ (['\n'] ++ (insStr ++ resLit))))))))) ++ w
          = x2 ++ ((p ++ (brcLit ++ (ws ++ (['\n'] ++ (conLit ++ (mid ++
              (['\n'] ++ (insStr ++ resLit)))))))) ++ w) := by
        simp [List.append_assoc]
      rw [hshape]
      apply tryMatch_none_of_blocked
      exact catchLit_tails_blocked x2 ((List.mem_tails _ _).mpr hx2) hxne hfull

/-- Scanning a stretch where the matcher fails at every position copies the
stretch unchanged. -/
theorem subAux_walk : ∀ (a tail : List Char),
    (∀ s2, s2 <:+ a → s2 ≠ [] → tryMatch (s2 ++ tail) = none) →
    reSub (a ++ tail) = (a ++ (reSub tail).1, (reSub tail).2) := by
  intro a
  induction a with
  | nil =>
    intro tail _
    simp
  | cons c a' ih =>
    intro tail h
    have h0 : tryMatch (c :: (a' ++ tail)) = none := by
      have := h (c :: a') (List.suffix_refl _) (by simp)
      rwa [List.cons_append] at this
    rw [List.cons_append, reSub_none h0,
      ih tail (fun s2 hs hn => h s2 (hs.trans ⟨[c], rfl⟩) hn)]
    rfl

/-- Either the scan output is the input itself, or it splits at the first
inserted line: a copied prefix of the input ending in a newline, then the
inserted text. -/
theorem reSub_split (s : List Char) :
    (reSub s).1 = s ∨
    ∃ a0 z, (reSub s).1 = (a0 ++ ['\n']) ++ (insStr ++ z) ∧
      (a0 ++ ['\n']) <+: s := by
  have H : ∀ (n : Nat) (u : List Char), u.length ≤ n →
      (reSub u).1 = u ∨
      ∃ a0 z, (reSub u).1 = (a0 ++ ['\n']) ++ (insStr ++ z) ∧
        (a0 ++ ['\n']) <+: u := by
    intro n
    induction n with
    | zero =>
      intro u hu
      have : u = [] := List.length_eq_zero.mp (Nat.le_zero.mp hu)
      subst this
      exact Or.inl rfl
    | succ n ih =>
      intro u hu
      cases htm : tryMatch u with
      | none =>
        cases u with
        | nil => exact Or.inl rfl
        | cons c t =>
          simp only [List.length_cons] at hu
          rw [reSub_none htm]
          rcases ih t (by omega) with hid | ⟨a0, z, heq, hpre⟩
          · exact Or.inl (by rw [hid])
          · refine Or.inr ⟨c :: a0, z, ?_, ?_⟩
            · simp only
              rw [heq]
              simp
            · obtain ⟨v, hv⟩ := hpre
              exact ⟨v, by rw [← hv]; simp⟩
      | some x =>
        obtain ⟨g1, g2, g3, rest⟩ := x
        have hlen := tryMatch_rest_length htm
        obtain ⟨p, ws, mid, hparts, hg1, hg2, hg3, hs⟩ := tryMatch_sound htm
        rw [reSub_match htm]
        unfold replacement
        split
        · rcases ih rest (by omega) with hid | ⟨a0, z, heq, hpre⟩
          · refine Or.inl ?_
            simp only
            rw [hid, hs, hg3]
            simp [List.append_assoc]
          · refine Or.inr ⟨g1 ++ g2 ++ g3 ++ a0, z, ?_, ?_⟩
            · simp only
              rw [heq]
              simp [List.append_assoc]
            · obtain ⟨v, hv⟩ := hpre
              refine ⟨v, ?_⟩
              rw [hs, hg3]
              simp only [List.append_assoc] at hv ⊢
              rw [hv]
        · refine Or.inr ⟨g1 ++ (conLit ++ mid), g3 ++ (reSub rest).1, ?_, ?_⟩
          · simp only
            rw [hg2, mkG2]
            simp [List.append_assoc]
          · refine ⟨g3 ++ rest, ?_⟩
            rw [hs, hg2, mkG2]
            simp [List.append_assoc]
  exact H s.length s (le_refl _)

/-! ## Lines of a match -/

theorem splitLines_chars : ∀ (u : List Char), ∀ l ∈ splitLines u, ∀ c ∈ l, c ∈ u := by
  intro u
  induction u with
  | nil =>
    intro l hl c hc
    have : l = [] := by simpa [splitLines] using hl
    subst this
    simp at hc
  | cons d t ih =>
    intro l hl c hc
    by_cases hd : d = '\n'
    · subst hd
      rw [splitLines_cons_nl] at hl
      rcases List.mem_cons.mp hl with rfl | hl
      · simp at hc
      · exact List.mem_cons_of_mem _ (ih l hl c hc)
    · rw [splitLines_cons_of_ne _ hd] at hl
      rcases List.mem_cons.mp hl with rfl | hl
      · rcases List.mem_cons.mp hc with rfl | hc
        · simp
        · obtain ⟨h0, T, hT⟩ := List.exists_cons_of_ne_nil (splitLines_ne_nil t)
          rw [hT] at hc
          simp only [List.headD_cons] at hc
          exact List.mem_cons_of_mem _ (ih h0 (by rw [hT]; simp) c hc)
      · have hlt : l ∈ splitLines t := List.mem_of_mem_tail hl
        exact List.mem_cons_of_mem _ (ih l hlt c hc)

theorem split_first_nl (l : List Char) :
    (∀ c ∈ l, c ≠ '\n') ∨
    ∃ lA lB, l = lA ++ '\n' :: lB ∧ (∀ c ∈ lA, c ≠ '\n') := by
  cases hdp : l.dropWhile (fun c => c != '\n') with
  | nil =>
    left
    intro c hc
    have htw : l.takeWhile (fun c => c != '\n') = l := by
      conv_rhs => rw [← List.takeWhile_append_dropWhile (fun c => c != '\n') l]
      rw [hdp]
      simp
    rw [← htw] at hc
    have := mem_takeWhile_pred (p := fun c => c != '\n') hc
    simpa using this
  | cons d lB =>
    right
    have hd : d = '\n' := by
      have := dropWhile_head_false hdp
      simpa using this
    subst hd
    refine ⟨l.takeWhile (fun c => c != '\n'), lB, ?_, ?_⟩
    · conv_lhs => rw [← List.takeWhile_append_dropWhile (fun c => c != '\n') l]
      rw [hdp]
    · intro c hc
      have := mem_takeWhile_pred (p := fun c => c != '\n') hc
      simpa using this

theorem split_last_nl (l : List Char) :
    (∀ c ∈ l, c ≠ '\n') ∨
    ∃ lA lB, l = lA ++ '\n' :: lB ∧ (∀ c ∈ lB, c ≠ '\n') := by
  rcases split_first_nl l.reverse with h | ⟨rA, rB, heq, hrA⟩
  · left
    intro c hc
    exact h c (List.mem_reverse.mpr hc)
  · right
    refine ⟨rB.reverse, rA.reverse, ?_, ?_⟩
    · have := congrArg List.reverse heq
      rw [List.reverse_reverse] at this
      rw [this]
      simp
    · intro c hc
      exact hrA c (List.mem_reverse.mp hc)

/-- Every line of `param ++ ") {" ++ ws` either contains no `)`, or is the
line through `) {` (no `)` before it, whitespace after it), or is whitespace
only. -/
theorem lines_param_brc_ws (p ws : List Char) (hp : ∀ c ∈ p, c ≠ ')')
    (hws : ∀ c ∈ ws, isPySpace c = true) :
    ∀ l ∈ splitLines (p ++ (brcLit ++ ws)),
      (∀ c ∈ l, c ≠ ')') ∨
      (∃ u v, l = u ++ ')' :: (' ' :: ('\x7b' :: v)) ∧ (∀ c ∈ u, c ≠ ')') ∧
        (∀ c ∈ v, isPySpace c = true)) ∨
      (∀ c ∈ l, isPySpace c = true) := by
  have hbrc : ∀ X : List Char, brcLit ++ X = ')' :: (' ' :: ('\x7b' :: X)) :=
    fun X => rfl
  have hbrcnl : ∀ c ∈ brcLit, c ≠ '\n' := by decide
  rcases split_last_nl p with hpn | ⟨pA, pB, hpeq, hpB⟩ <;>
    rcases split_first_nl ws with hwn | ⟨wA, wB, hweq, hwA⟩
  · -- no newline anywhere: a single line through `) {`
    intro l hl
    have hnl : ∀ c ∈ p ++ (brcLit ++ ws), c ≠ '\n' := by
      intro c hc
      rcases List.mem_append.mp hc with h | h
      · exact hpn c h
      · rcases List.mem_append.mp h with h | h
        · exact hbrcnl c h
        · exact hwn c h
    rw [splitLines_no_nl hnl] at hl
    rcases List.mem_cons.mp hl with rfl | hl
    · exact Or.inr (Or.inl ⟨p, ws, by rw [hbrc], hp, hws⟩)
    · simp at hl
  · -- newline only inside `ws`
    intro l hl
    have hshape : p ++ (brcLit ++ ws) = (p ++ (brcLit ++ wA)) ++ '\n' :: wB := by
      rw [hweq]
      simp [List.append_assoc]
    rw [hshape, splitLines_append_nl] at hl
    have hline1 : ∀ c ∈ p ++ (brcLit ++ wA), c ≠ '\n' := by
      intro c hc
      rcases List.mem_append.mp hc with h | h
      · exact hpn c h
      · rcases List.mem_append.mp h with h | h
        · exact hbrcnl c h
        · exact hwA c h
    rw [splitLines_no_nl hline1] at hl
    rcases List.mem_append.mp hl with hl | hl
    · rcases List.mem_cons.mp hl with rfl | hl
      · refine Or.inr (Or.inl ⟨p, wA, by rw [hbrc], hp, ?_⟩)
        intro c hc
        exact hws c (by rw [hweq]; simp [hc])
      · simp at hl
    · refine Or.inr (Or.inr ?_)
      intro c hc
      have : c ∈ wB := splitLines_chars wB l hl c hc
      exact hws c (by rw [hweq]; simp [this])
  · -- newline only inside `p`
    intro l hl
    have hshape : p ++ (brcLit ++ ws) = pA ++ '\n' :: (pB ++ (brcLit ++ ws)) := by
      rw [hpeq]
      simp [List.append_assoc]
    rw [hshape, splitLines_append_nl] at hl
    have hline2 : ∀ c ∈ pB ++ (brcLit ++ ws), c ≠ '\n' := by
      intro c hc
      rcases List.mem_append.mp hc with h | h
      · exact hpB c h
      · rcases List.mem_append.mp h with h | h
        · exact hbrcnl c h
        · exact hwn c h
    rw [splitLines_no_nl hline2] at hl
    rcases List.mem_append.mp hl with hl | hl
    · refine Or.inl ?_
      intro c hc
      have : c ∈ pA := splitLines_chars pA l hl c hc
      exact hp c (by rw [hpeq]; simp [this])
    · rcases List.mem_cons.mp hl with rfl | hl
      · refine Or.inr (Or.inl ⟨pB, ws, by rw [hbrc], ?_, hws⟩)
        intro c hc
        exact hp c (by rw [hpeq]; simp [hc])
      · simp at hl
  · -- newlines in both `p` and `ws`
    intro l hl
    have hshape : p ++ (brcLit ++ ws)
        = pA ++ '\n' :: ((pB ++ (brcLit ++ wA)) ++ '\n' :: wB) := by
      rw [hpeq, hweq]
      simp [List.append_assoc]
    rw [hshape, splitLines_append_nl, splitLines_append_nl] at hl
    have hline3 : ∀ c ∈ pB ++ (brcLit ++ wA), c ≠ '\n' := by
      intro c hc
      rcases List.mem_append.mp hc with h | h
      · exact hpB c h
      · rcases List.mem_append.mp h with h | h
        · exact hbrcnl c h
        · exact hwA c h
    rw [splitLines_no_nl hline3] at hl
    rcases List.mem_append.mp hl with hl | hl
    · refine Or.inl ?_
      intro c hc
      have : c ∈ pA := splitLines_chars pA l hl c hc
      exact hp c (by rw [hpeq]; simp [this])
    · rcases List.mem_append.mp hl with hl | hl
      · rcases List.mem_cons.mp hl with rfl | hl
        · refine Or.inr (Or.inl ⟨pB, wA, by rw [hbrc], ?_, ?_⟩)
          · intro c hc
            exact hp c (by rw [hpeq]; simp [hc])
          · intro c hc
            exact hws c (by rw [hweq]; simp [hc])
        · simp at hl
      · refine Or.inr (Or.inr ?_)
        intro c hc
        have : c ∈ wB := splitLines_chars wB l hl c hc
        exact hws c (by rw [hweq]; simp [this])

/-- The inserted logging line is never a line of a catch header (group 1
without its final newline). -/
theorem insLine_not_g1_line (p ws : List Char) (hp : ∀ c ∈ p, c ≠ ')')
    (hws : ∀ c ∈ ws, isPySpace c = true) :
    insLine ∉ splitLines (catchLit ++ (p ++ (brcLit ++ ws))) := by
  intro hmem
  have hcat : ∀ c ∈ catchLit, c ≠ '\n' := by decide
  rw [splitLines_append_no_nl _ hcat] at hmem
  rcases List.mem_cons.mp hmem with heq | hmem
  · have h3 := congrArg (fun l => l.take 3) heq
    simp only at h3
    rw [List.take_append_of_le_length (by decide)] at h3
    exact absurd h3 (by decide)
  · have hmem2 : insLine ∈ splitLines (p ++ (brcLit ++ ws)) :=
      List.mem_of_mem_tail hmem
    rcases lines_param_brc_ws p ws hp hws insLine hmem2 with h | ⟨u, v, heq, hu, hv⟩ | h
    · exact (h ')' (by decide)) rfl
    · have hsp := takeWhile_split (p := fun c => c != ')') u ')'
        (' ' :: ('\x7b' :: v)) (fun c hc => bne_true_of_ne (hu c hc)) (by decide)
      have h2 : insLine.dropWhile (fun c => c != ')') = ')' :: (' ' :: ('\x7b' :: v)) := by
        rw [heq]
        exact hsp.2
      have hconc : insLine.dropWhile (fun c => c != ')')
          = ')' :: ('.' :: "catch(() => \x7b\x7d);".toList) := by decide
      rw [hconc] at h2
      simp at h2
    · exact absurd (h 'a' (by decide)) (by decide)

/-- No match of the pattern can contain, directly after a newline, the full
inserted text `insStr`. -/
theorem match_no_insline {p ws mid : List Char} (hparts : IsMatchParts p ws mid) :
    ∀ x0 y, mkG1 p ws ++ (mkG2 mid ++ resLit) ≠ x0 ++ ('\n' :: (insStr ++ y)) := by
  obtain ⟨hp, hpc, hws, hmid, hmidc⟩ := hparts
  intro x0 y hE
  have hmem : insLine ∈ splitLines (x0 ++ ('\n' :: (insStr ++ y))) := by
    rw [splitLines_append_nl]
    have hinsy : insStr ++ y = insLine ++ '\n' :: y := by simp [insStr]
    rw [hinsy, splitLines_append_nl]
    have hinl : ∀ c ∈ insLine, c ≠ '\n' := by decide
    rw [splitLines_no_nl hinl]
    simp
  rw [← hE] at hmem
  have hshape : mkG1 p ws ++ (mkG2 mid ++ resLit)
      = (catchLit ++ (p ++ (brcLit ++ ws))) ++ '\n' ::
          ((conLit ++ mid) ++ '\n' :: resLit) := by
    simp [mkG1, mkG2, List.append_assoc]
  rw [hshape, splitLines_append_nl, splitLines_append_nl] at hmem
  have hg2nl : ∀ c ∈ conLit ++ mid, c ≠ '\n' := by
    intro c hc
    rcases List.mem_append.mp hc with h | h
    · exact (by decide : ∀ c ∈ conLit, c ≠ '\n') c h
    · exact hmidc c h
  have hresnl : ∀ c ∈ resLit, c ≠ '\n' := by decide
  rw [splitLines_no_nl hg2nl, splitLines_no_nl hresnl] at hmem
  rcases List.mem_append.mp hmem with h | h
  · exact insLine_not_g1_line p ws hpc hws h
  · rcases List.mem_append.mp h with h | h
    · rcases List.mem_cons.mp h with heq | h
      · have h5 := congrArg (fun l => l.take 5) heq
        simp only at h5
        rw [List.take_append_of_le_length (by decide)] at h5
        exact absurd h5 (by decide)
      · simp at h
    · rcases List.mem_cons.mp h with heq | h
      · exact absurd heq (by decide)
      · simp at h

theorem suffix_of_suffix_le {a b l : List Char} (ha : a <:+ l) (hb : b <:+ l)
    (h : a.length ≤ b.length) : a <:+ b := by
  rw [← List.reverse_prefix] at ha hb ⊢
  obtain ⟨t, ht⟩ := hb
  have ha2 : a.reverse <+: b.reverse ++ t := by rw [ht]; exact ha
  exact prefix_of_append_le ha2 (by simpa using h)

theorem prefix_take_eq {a l : List Char} (h : a <+: l) : a = l.take a.length := by
  obtain ⟨t, rfl⟩ := h
  rw [List.take_append_of_le_length (le_refl _), List.take_length]

/-- A position where the first pass found no match still has no match in the
second pass: the agreement region is too short for a match that pass one
missed, and a longer match would have to absorb the inserted text. -/
theorem gap_preserved {c : Char} {t' a0 z : List Char}
    (htm : tryMatch (c :: t') = none)
    (heq : (reSub t').1 = (a0 ++ ['\n']) ++ (insStr ++ z))
    (hpre : (a0 ++ ['\n']) <+: t') :
    tryMatch (c :: (reSub t').1) = none := by
  cases h2 : tryMatch (c :: (reSub t').1) with
  | none => rfl
  | some x =>
    exfalso
    obtain ⟨G1, G2, G3, R⟩ := x
    obtain ⟨P, W, M, hPp, hG1, hG2, hG3, hsdec⟩ := tryMatch_sound h2
    have hPm : c :: (reSub t').1 = (G1 ++ (G2 ++ G3)) ++ R := by
      rw [hsdec]
      simp [List.append_assoc]
    have hA : c :: (reSub t').1 = (c :: (a0 ++ ['\n'])) ++ (insStr ++ z) := by
      rw [heq]
      simp
    have hsplit : (G1 ++ (G2 ++ G3)) ++ R
        = (c :: (a0 ++ ['\n'])) ++ (insStr ++ z) := by
      rw [← hPm, hA]
    by_cases hle : (G1 ++ (G2 ++ G3)).length ≤ (c :: (a0 ++ ['\n'])).length
    · have hPmpre : (G1 ++ (G2 ++ G3)) <+: (c :: (a0 ++ ['\n'])) :=
        prefix_of_append_le ⟨R, hsplit⟩ hle
      have hApre : (c :: (a0 ++ ['\n'])) <+: c :: t' := by
        obtain ⟨v, hv⟩ := hpre
        exact ⟨v, by rw [← hv]; simp⟩
      obtain ⟨v2, hv2⟩ := hPmpre.trans hApre
      have hcontr : tryMatch (c :: t') = some (G1, G2, G3, v2) := by
        rw [← hv2]
        have hsh : (G1 ++ (G2 ++ G3)) ++ v2
            = mkG1 P W ++ (mkG2 M ++ (resLit ++ v2)) := by
          rw [hG1, hG2, hG3]
          simp [List.append_assoc]
        rw [hsh, hG1, hG2, hG3]
        exact tryMatch_structured_some hPp v2
      rw [htm] at hcontr
      exact Option.noConfusion hcontr
    · push_neg at hle
      have hApre2 : (c :: (a0 ++ ['\n'])) <+: (G1 ++ (G2 ++ G3)) :=
        prefix_of_append_le ⟨insStr ++ z, by rw [hsplit]⟩ (le_of_lt hle)
      obtain ⟨q, hq⟩ := hApre2
      have hqR : q ++ R = insStr ++ z := by
        have hx := hsplit
        rw [← hq, List.append_assoc] at hx
        exact List.append_cancel_left hx
      have hqlen : 0 < q.length := by
        have hlq := congrArg List.length hq
        rw [List.length_append] at hlq
        omega
      by_cases hql : q.length ≤ insStr.length
      · have hqpre : q <+: insStr := prefix_of_append_le ⟨R, hqR⟩ hql
        have hqeq : q = insStr.take q.length := prefix_take_eq hqpre
        have hressuf : resLit <:+ (G1 ++ (G2 ++ G3)) :=
          ⟨G1 ++ G2, by rw [hG3]; simp [List.append_assoc]⟩
        have hqsuf : q <:+ (G1 ++ (G2 ++ G3)) := ⟨c :: (a0 ++ ['\n']), hq⟩
        by_cases hq15 : resLit.length ≤ q.length
        · have hrq : resLit <:+ q := suffix_of_suffix_le hressuf hqsuf hq15
          rw [hqeq] at hrq
          exact (by decide :
            ∀ k, k ≤ insStr.length → ¬ (resLit <:+ insStr.take k))
            q.length hql hrq
        · push_neg at hq15
          have hqr : q <:+ resLit := suffix_of_suffix_le hqsuf hressuf (le_of_lt hq15)
          rw [hqeq] at hqr
          exact (by decide :
            ∀ k, k < resLit.length → 1 ≤ k → ¬ (insStr.take k <:+ resLit))
            q.length hq15 hqlen hqr
      · push_neg at hql
        have hinspre : insStr <+: q := by
          have h1 : insStr <+: q ++ R := by
            rw [hqR]
            exact ⟨z, rfl⟩
          exact prefix_of_append_le h1 (le_of_lt hql)
        obtain ⟨q2, hq2⟩ := hinspre
        have hfinal : mkG1 P W ++ (mkG2 M ++ resLit)
            = (c :: a0) ++ ('\n' :: (insStr ++ q2)) := by
          rw [← hG1, ← hG2, ← hG3, ← hq, ← hq2]
          simp [List.append_assoc]
        exact match_no_insline hPp (c :: a0) q2 hfinal

/-- Idempotence of the scan: running `re.sub` on its own output changes
nothing and counts zero modifications. -/
theorem reSub_idempotent (s : List Char) :
    reSub (reSub s).1 = ((reSub s).1, 0) := by
  have H : ∀ (n : Nat) (u : List Char), u.length ≤ n →
      reSub (reSub u).1 = ((reSub u).1, 0) := by
    intro n
    induction n with
    | zero =>
      intro u hu
      have : u = [] := List.length_eq_zero.mp (Nat.le_zero.mp hu)
      subst this
      rfl
    | succ n ih =>
      intro u hu
      cases htm : tryMatch u with
      | none =>
        cases u with
        | nil => rfl
        | cons c t =>
          simp only [List.length_cons] at hu
          rw [reSub_none htm]
          simp only
          have hgap : tryMatch (c :: (reSub t).1) = none := by
            rcases reSub_split t with hid | ⟨a0, z, heq, hpre⟩
            · rw [hid]
              exact htm
            · exact gap_preserved htm heq hpre
          rw [reSub_none hgap, ih t (by omega)]
      | some x =>
        obtain ⟨g1, g2, g3, rest⟩ := x
        have hlen := tryMatch_rest_length htm
        obtain ⟨p, ws, mid, hparts, hg1, hg2, hg3, hs⟩ := tryMatch_sound htm
        rw [reSub_match htm]
        by_cases hmk : hasMarker (g1 ++ g2 ++ g3) = true
        · have hrp : replacement g1 g2 g3 = (g1 ++ g2 ++ g3, 0) := by
            unfold replacement
            rw [if_pos hmk]
          rw [hrp]
          simp only
          have hm2 : tryMatch ((g1 ++ g2 ++ g3) ++ (reSub rest).1)
              = some (g1, g2, g3, (reSub rest).1) := by
            have hsh : (g1 ++ g2 ++ g3) ++ (reSub rest).1
                = mkG1 p ws ++ (mkG2 mid ++ (resLit ++ (reSub rest).1)) := by
              rw [hg1, hg2, hg3]
              simp [List.append_assoc]
            rw [hsh, hg1, hg2, hg3]
            exact tryMatch_structured_some hparts _
          rw [reSub_match hm2, hrp]
          simp only
          rw [ih rest (by omega)]
          simp
        · have hrp : replacement g1 g2 g3 = (g1 ++ g2 ++ insStr ++ g3, 1) := by
            unfold replacement
            rw [if_neg hmk]
          rw [hrp]
          simp only
          have hsh : (g1 ++ g2 ++ insStr ++ g3) ++ (reSub rest).1
              = (mkG1 p ws ++ (mkG2 mid ++ (insStr ++ resLit))) ++ (reSub rest).1 := by
            rw [hg1, hg2, hg3]
            simp [List.append_assoc]
          rw [hsh, subAux_walk _ _ (tryMatch_none_inside_chunk hparts _),
            ih rest (by omega)]
  exact H s.length s (le_refl _)

/-- C1: the transform is idempotent: applying `add_error_logging_to_file` to
the text produced by a first application reports zero modifications, leaves
the text byte-identical, and performs no write. -/
theorem claim_C1_idempotence (content : List Char) :
    add_error_logging_to_file ((add_error_logging_to_file content).1)
      = ((add_error_logging_to_file content).1, 0, false) := by
  have hout : (add_error_logging_to_file content).1 = (reSub content).1 := by
    unfold add_error_logging_to_file
    by_cases h : (reSub content).1 = content
    · simp [h]
    · simp [h]
  rw [hout]
  unfold add_error_logging_to_file
  rw [reSub_idempotent content]
  simp
